import Mathlib

/-!
# The CSI agent module (`agent/csi/mod_csi.go`)

A shallow embedding of the module facade (`newModule`, `Start`, `Stop`, the
accessors), of the goroutines `Start` spawns, and of the line-oriented log
adapter (`newLogger`, `logger.Write`), followed by the properties proved about
them.

Go strings are Lean `String`s, byte slices are lists of naturals, a Go `error`
result is either `Except` or an `Option` of the error value, and every call
into another package is either an input of the embedding (the result of
`gocsi.ParseProtoAddr`, of `net.Listen`, of `newService`, of `bridge.List`) or
an entry of the effect trace.
-/

namespace Csi

/-! ## Strings -/

/-- Go `strings.HasPrefix` on character lists. -/
def hasPrefix : List Char → List Char → Bool
  | _, [] => true
  | [], _ :: _ => false
  | a :: s, b :: p => a == b && hasPrefix s p

/-- Go `strings.Contains` on character lists: some suffix of `s` starts with `substr`. -/
def containsChars : List Char → List Char → Bool
  | [], substr => substr.isEmpty
  | a :: s, substr => hasPrefix (a :: s) substr || containsChars s substr

/-- Go `strings.Contains(s, substr)`. -/
def stringsContains (s substr : String) : Bool :=
  containsChars s.data substr.data

/-- Go `strings.TrimLeft(s, cutset)` on character lists. -/
def trimLeftChars (cutset : List Char) : List Char → List Char
  | [] => []
  | a :: s => if cutset.contains a then trimLeftChars cutset s else a :: s

/-- Go `strings.Trim(s, cutset)`: drops the leading and the trailing characters
that belong to `cutset`. -/
def stringsTrim (s cutset : String) : String :=
  String.mk (trimLeftChars cutset.data (trimLeftChars cutset.data s.data).reverse).reverse

/-! ## The module and its constructor -/

/-- The value `newService` returns; its constructor is declared in another file
of the package, so only the arguments it was built from are kept. -/
structure csiService where
  name : String
  driver : String
deriving DecidableEq, Repr

/-- What `Addr()` of a `net.Listener` reports: `Network()` and `String()`. -/
structure Listener where
  network : String
  address : String
deriving DecidableEq, Repr

/-- The fields of `agent.Config` that the module reads, with the two
configuration keys it looks up. -/
structure Config where
  Name : String
  Description : String
  Address : String
  /-- Value of `config.GetString("csi.driver")`. -/
  csiDriver : String
  /-- Value of `config.GetBool("csi.nodocker")`. -/
  csiNoDocker : Bool
deriving DecidableEq, Repr

/-- The state of `struct mod` that the module's own code reads or writes. -/
structure mod where
  config : Config
  name : String
  addr : String
  desc : String
  cs : csiService
  /-- Field `lis`: `none` is the nil listener. -/
  lis : Option Listener
  /-- Whether `m.cancel` is set (non-nil). -/
  cancel : Bool
  /-- Whether `m.ctx` has been cancelled, so that `ctx.Done()` is closed. -/
  ctxDone : Bool
  /-- Counter of the `sync.WaitGroup` field `waitForCancel`. -/
  waitForCancel : Int
deriving DecidableEq, Repr

/-- Modelled from the spec: `apictx.WithCancel`, which is declared outside this
file. It gives the module its Cancellation Signal, a context derived from the
old one (so cancelled exactly when the old one was), and sets `m.cancel`, the
function that fires the signal. -/
abbrev mod.withCancel (m : mod) : mod :=
  { m with cancel := true }

/-- Modelled from the spec: the cancel function returned by `apictx.WithCancel`,
which is declared outside this file. It fires the Cancellation Signal: from
then on `ctx.Done()` is closed for every goroutine that observes it, and
firing it again changes nothing. -/
abbrev mod.fireCancel (m : mod) : mod :=
  { m with ctxDone := true }

/-- Method `Name`. -/
def mod.Name (m : mod) : String := m.name

/-- Method `Description`. -/
def mod.Description (m : mod) : String := m.desc

/-- Method `Address`. -/
def mod.Address (m : mod) : String := m.addr

/-- Function `newModule`. The configuration is passed by pointer in the source,
so the possibly updated configuration is returned next to the result.
`newService name driver` is `none` when the source's `newService` returns nil.
The gRPC server that the function creates and registers the service with has
no bearing on what it returns and is left out. -/
def newModule (newService : String → String → Option csiService) (c : Config) :
    Config × Except String mod :=
  let host := stringsTrim c.Address " "
  if host = "" then
    (c, .error "error: host is required")
  else
    let c := { c with Address := host }
    let csiDriver := c.csiDriver
    match newService c.Name csiDriver with
    | none => (c, .error ("invalid csi driver: " ++ csiDriver))
    | some cs =>
      (c, .ok
        { config := c, name := c.Name, desc := c.Description, addr := host, cs := cs,
          lis := none, cancel := false, ctxDone := false, waitForCancel := 0 })

/-! ## Errors of the RPC server's serve call -/

/-- An `error` value as the serve-error handler tells them apart: the sentinel
`grpc.ErrServerStopped`, compared by identity, or any other value with the text
its `Error()` method returns. -/
inductive goError where
  | ErrServerStopped
  | other (msg : String)
deriving DecidableEq, Repr

/-- Method `Error()` of an error value. -/
def goError.Error : goError → String
  | .ErrServerStopped => "grpc: the server has been stopped"
  | .other msg => msg

/-- What the goroutine that runs `m.gs.Serve(ll)` does with the value returned. -/
inductive serveOutcome where
  /-- Nothing happens: the goroutine ends silently. -/
  | silent
  /-- The call `panic(err)`. -/
  | panic (err : goError)
  /-- The call `ctx.WithError(err).Warn("failed to start csi grpc server")`. -/
  | warn (err : goError)
deriving DecidableEq, Repr

/-- The handling of the result of `m.gs.Serve(ll)` in `Start` (`none` is a nil
error). -/
def gsServeResult (isMultiplexed : Bool) (err : Option goError) : serveOutcome :=
  match err with
  | none => .silent
  | some e =>
    if e ≠ goError.ErrServerStopped then
      if !isMultiplexed then
        if !stringsContains e.Error "use of closed network connection" then
          .panic e
        else
          .silent
      else if !stringsContains e.Error "mux: listener closed" then
        .warn e
      else
        .silent
    else
      .silent

/-! ## Start: listeners, classifier rules and goroutines -/

/-- Constant `protoUnix`. -/
def protoUnix : String := "unix"

/-- The listener variables of `Start`: the raw listener `l` and the three
listeners derived from the multiplexer. -/
inductive listenerVar where
  | l
  | httpl
  | grpcl
  | http2
deriving DecidableEq, Repr

/-- The `cmux` matchers that `Start` declares. -/
inductive cmuxMatcher where
  | HTTP1Fast
  | HTTP2MatchHeaderFieldSendSettings (name value : String)
  | HTTP2
deriving DecidableEq, Repr

/-- The servers whose `Serve` is called from `Start`. -/
inductive server where
  /-- Field `gs`, the gRPC server. -/
  | gs
  /-- Field `cs`, the CSI service. -/
  | cs
  /-- Variable `dh`, the Docker volume handler in front of the bridge. -/
  | dh
deriving DecidableEq, Repr

/-- The goroutines started by the `go` statements in the body of `Start`. -/
inductive goroutine where
  /-- Waits for `ctx.Done()`, closes the three derived listeners and calls
  `m.waitForCancel.Done()` three times. -/
  | closeOnCancel
  /-- Starts `m.cs.Serve(ctx, nil)` in a goroutine of its own and runs
  `m.gs.Serve(ll)`, where `ll` is `l`, or `grpcl` when multiplexing. -/
  | csiEndpoint (isMultiplexed : Bool)
  /-- Creates the bridge, starts the warmup loop and serves `dh` on `httpl` and
  on `http2`. -/
  | dockerVolumeAPI
  /-- Runs `tcpm.Serve()`. -/
  | cmuxServe
deriving DecidableEq, Repr

/-- The `Serve` calls issued by a goroutine and by the goroutines it starts:
the server and the listener it is given (`none` is the nil listener). -/
def goroutine.serves : goroutine → List (server × Option listenerVar)
  | .closeOnCancel => []
  | .csiEndpoint isMultiplexed =>
    let ll := if isMultiplexed then listenerVar.grpcl else listenerVar.l
    [(.cs, none), (.gs, some ll)]
  | .dockerVolumeAPI => [(.dh, some .httpl), (.dh, some .http2)]
  | .cmuxServe => []

/-- The calls `Start` makes on its own goroutine, in program order; the log
entries it writes are left out. -/
inductive effect where
  /-- The call `apictx.WithCancel(m.ctx)`. -/
  | withCancel
  /-- The call `doLoadGoPluginsFuncOnce(ctx, m.config)`. -/
  | loadGoPlugins
  /-- The call `os.MkdirAll(filepath.Dir(addr), 0755)`. -/
  | mkdirAllDir (addr : String)
  /-- The call `os.RemoveAll(addr)`. -/
  | removeAll (addr : String)
  /-- The call `net.Listen(proto, addr)`. -/
  | listen (proto addr : String)
  /-- The call `cmux.New(l)`. -/
  | cmuxNew
  /-- A call `tcpm.Match(..)` or `tcpm.MatchWithWriters(..)` and the variable
  that receives the derived listener. -/
  | cmuxMatch (matcher : cmuxMatcher) (out : listenerVar)
  /-- The call `m.waitForCancel.Add(delta)`. -/
  | wgAdd (delta : Nat)
  /-- A `go` statement. -/
  | go (g : goroutine)
deriving DecidableEq, Repr

/-- Method `Start`. `parseProtoAddr` stands for `gocsi.ParseProtoAddr` and
`netListen` for `net.Listen`. The result is the module after the call, the
calls made in program order, and the error returned (`none` is nil). The new
context is a child of the old one, so it is cancelled exactly when the old one
was and `ctxDone` is left as it is. -/
def mod.Start (parseProtoAddr : String → Except String (String × String))
    (netListen : String → String → Except String Listener) (m : mod) :
    mod × List effect × Option String :=
  let m := m.withCancel
  let isMultiplexed := !m.config.csiNoDocker
  match parseProtoAddr m.Address with
  | .error err => (m, [.withCancel, .loadGoPlugins], some err)
  | .ok (proto, addr) =>
    let sock : List effect :=
      if proto = protoUnix then [.mkdirAllDir addr, .removeAll addr] else []
    match netListen proto addr with
    | .error err => (m, [.withCancel, .loadGoPlugins] ++ sock ++ [.listen proto addr], some err)
    | .ok l =>
      let m := { m with lis := some l }
      let pre := [effect.withCancel, .loadGoPlugins] ++ sock ++ [.listen proto addr]
      -- the multiplexer, its three matches and the goroutine that closes them
      let m := if isMultiplexed then { m with waitForCancel := m.waitForCancel + 3 } else m
      let mux : List effect :=
        if isMultiplexed then
          [.cmuxNew,
           .cmuxMatch .HTTP1Fast .httpl,
           .cmuxMatch (.HTTP2MatchHeaderFieldSendSettings "content-type" "application/grpc") .grpcl,
           .cmuxMatch .HTTP2 .http2,
           .wgAdd 3,
           .go .closeOnCancel]
        else []
      -- the CSI endpoint
      let endpoint : List effect := [.go (.csiEndpoint isMultiplexed)]
      if !isMultiplexed then
        (m, pre ++ mux ++ endpoint, none)
      else
        -- one more unit for the warmup loop, then the Docker volume API and the multiplexer
        let m := { m with waitForCancel := m.waitForCancel + 1 }
        (m, pre ++ mux ++ endpoint ++ [.wgAdd 1, .go .dockerVolumeAPI, .go .cmuxServe], none)

/-- The units registered on the wait group by a list of calls. -/
def registeredUnits : List effect → Nat
  | [] => 0
  | .wgAdd delta :: es => delta + registeredUnits es
  | _ :: es => registeredUnits es

/-- The classifier rules declared by a list of calls, in declaration order. -/
def declaredRules : List effect → List (cmuxMatcher × listenerVar)
  | [] => []
  | .cmuxMatch matcher out :: es => (matcher, out) :: declaredRules es
  | _ :: es => declaredRules es

/-- The goroutines started by a list of calls. -/
def startedGoroutines : List effect → List goroutine
  | [] => []
  | .go g :: es => g :: startedGoroutines es
  | _ :: es => startedGoroutines es

/-- The servers that are served on a given listener by the goroutines a list of
calls starts. -/
def serversOn (es : List effect) (lv : listenerVar) : List server :=
  (((startedGoroutines es).map goroutine.serves).flatten.filter
    (fun sl => decide (sl.2 = some lv))).map Prod.fst

/-! ## The multiplexer's dispatch -/

/-- Modelled from the spec: the byte prefixes by which `cmux.HTTP1Fast()`
recognises an HTTP/1.x request line. Package `cmux` is not under `src/`; the
prefixes are the method names it matches by default. -/
def defaultHTTPMethods : List String :=
  ["OPTIONS", "GET", "HEAD", "POST", "PUT", "DELETE", "TRACE", "CONNECT"]

/-- Modelled from the spec: the HTTP/2 client preface, the 24 bytes
`PRI * HTTP/2.0`, CR LF, CR LF, `SM`, CR LF, CR LF, which package `cmux`
(not under `src/`) compares the first bytes of a connection with. -/
def clientPreface : List Char :=
  "PRI * HTTP/2.0".data ++ [Char.ofNat 13, Char.ofNat 10, Char.ofNat 13, Char.ofNat 10] ++
    "SM".data ++ [Char.ofNat 13, Char.ofNat 10, Char.ofNat 13, Char.ofNat 10]

/-- Modelled from the spec: a frame as the header matcher of package `cmux`
(not under `src/`) gets it from the HTTP/2 framer. -/
inductive http2Frame where
  /-- A SETTINGS frame. -/
  | settings (ack : Bool)
  /-- A HEADERS or CONTINUATION frame: the header fields decoded from its
  block fragment, in order, and its END_HEADERS flag. -/
  | headers (fields : List (String × String)) (endHeaders : Bool)
  /-- A frame of another type. -/
  | other
  /-- The frame cannot be read, or its header block cannot be decoded. -/
  | broken
deriving DecidableEq, Repr

/-- Modelled from the spec: an inbound connection as the classifier of package
`cmux` (not under `src/`) peeks at it: the first bytes the client sends and,
for a connection that opens with the HTTP/2 preface, the frames that follow
the preface. The decoding of bytes into frames is the work of the HTTP/2
library and is an input here. -/
structure conn where
  bytes : List Char
  frames : List http2Frame
deriving DecidableEq, Repr

/-- Modelled from the spec: function `matchHTTP2Field` of package `cmux` (not
under `src/`), after the preface. Frames are read one by one; a frame that
carries header fields decides the match as soon as it holds a field of the
given name or ends the headers, and then the match succeeds when some field of
that frame has the name and the value; a frame that cannot be read, or the end
of the frames, fails it. -/
def matchHTTP2Field (name value : String) : List http2Frame → Bool
  | [] => false
  | .broken :: _ => false
  | .headers fields endHeaders :: frames =>
    if fields.any (fun hf => decide (hf.1 = name)) || endHeaders then
      fields.any (fun hf => decide (hf.1 = name) && decide (hf.2 = value))
    else
      matchHTTP2Field name value frames
  | .settings _ :: frames => matchHTTP2Field name value frames
  | .other :: frames => matchHTTP2Field name value frames

/-- Modelled from the spec: whether a matcher of package `cmux` (not under
`src/`) accepts a connection. `HTTP1Fast` accepts the connections whose first
bytes begin with one of the default method names, `HTTP2` those that begin
with the client preface, and `HTTP2MatchHeaderFieldSendSettings` those that
begin with the preface and pass `matchHTTP2Field`. -/
def cmuxMatcher.accepts : cmuxMatcher → conn → Bool
  | .HTTP1Fast, c => defaultHTTPMethods.any (fun method => hasPrefix c.bytes method.data)
  | .HTTP2MatchHeaderFieldSendSettings name value, c =>
    hasPrefix c.bytes clientPreface && matchHTTP2Field name value c.frames
  | .HTTP2, c => hasPrefix c.bytes clientPreface

/-- Modelled from the spec: the serve loop of package `cmux` (not under `src/`)
for one accepted connection. The rules are tried in declaration order; the
connection is handed to the listener of the first rule whose matcher accepts
it and the loop returns; when no rule accepts it the connection is closed. The
result lists the listeners the connection is handed to. -/
def cmuxServe : List (cmuxMatcher × listenerVar) → conn → List listenerVar
  | [], _ => []
  | (matcher, out) :: rules, c => if matcher.accepts c then [out] else cmuxServe rules c

/-! ## The goroutines at run time and Stop -/

/-- The threads of control that touch the cancellation signal or the wait
group: a caller of `Stop`, the goroutine that closes the derived listeners, and
the warmup loop. -/
inductive thread where
  | stop
  | closer
  | warmup
deriving DecidableEq, Repr

/-- The observable actions of those threads. -/
inductive event where
  /-- The call `m.cancel()`. -/
  | cancel
  /-- The call `m.waitForCancel.Wait()` has returned. -/
  | waitReturned
  /-- The call `m.gs.GracefulStop()`. -/
  | gsGracefulStop
  /-- The call `m.cs.GracefulStop(m.ctx)`. -/
  | csGracefulStop
  /-- The call `os.RemoveAll(addr.String())`. -/
  | removeAll (path : String)
  /-- A receive from `ctx.Done()`. -/
  | ctxDone
  /-- The call `Close()` on a derived listener. -/
  | close (lv : listenerVar)
  /-- The call `m.waitForCancel.Done()`. -/
  | wgDone
  /-- A call of `bridge.List()` and whether its error was nil. -/
  | list (ok : Bool)
  /-- A receive from `time.After(time.Duration(1) * time.Second)`. -/
  | timeAfter1s
deriving DecidableEq, Repr

/-- Where the warmup goroutine stands. -/
inductive warmPc where
  /-- About to call `bridge.List()`. -/
  | list
  /-- In the `select` statement. -/
  | select
  /-- Out of the loop through `break`, about to call `m.waitForCancel.Done()`. -/
  | done
  /-- Ended after the call of `Done()`. -/
  | finished
  /-- Ended through the `return` of the `ctx.Done()` case. -/
  | returned
deriving DecidableEq, Repr

/-- The warmup goroutine: its position and the number of `bridge.List()` calls
made so far. -/
structure warmState where
  pc : warmPc
  calls : Nat
deriving DecidableEq, Repr

/-- One step of the warmup loop. `probe k` tells whether the call number `k`
(from zero) of `bridge.List()` returns a nil error, `ctxDone` whether the
context is cancelled when the step is taken. In the `select` the timer is one
second away on entry, so the `ctx.Done()` case wins when the context is
cancelled by the time the statement resolves, and the timer case otherwise. The
third component tells whether the step calls `m.waitForCancel.Done()`. -/
def warmStep (probe : Nat → Bool) (ctxDone : Bool) (s : warmState) :
    warmState × Option event × Bool :=
  match s.pc with
  | .list =>
    if probe s.calls then
      ({ pc := .done, calls := s.calls + 1 }, some (.list true), false)
    else
      ({ pc := .select, calls := s.calls + 1 }, some (.list false), false)
  | .select =>
    if ctxDone then
      ({ s with pc := .returned }, some .ctxDone, false)
    else
      ({ s with pc := .list }, some .timeAfter1s, false)
  | .done => ({ s with pc := .finished }, some .wgDone, true)
  | .finished => (s, none, false)
  | .returned => (s, none, false)

/-- The warmup loop run on its own for at most `fuel` steps from step number
`t`. `fired t` tells whether the cancellation signal has fired by step `t`.
The result lists the steps taken with their numbers. -/
def warmRun (probe : Nat → Bool) (fired : Nat → Bool) : Nat → Nat → warmState → List (Nat × event)
  | 0, _, _ => []
  | fuel + 1, t, s =>
    match warmStep probe (fired t) s with
    | (s', some e, _) => (t, e) :: warmRun probe fired fuel (t + 1) s'
    | (_, none, _) => []

/-- The state of the warmup goroutine when it is started. -/
def warmState.init : warmState := { pc := .list, calls := 0 }

/-- The steps of a run that are calls of `bridge.List()`. -/
def listCalls (tr : List (Nat × event)) : List (Nat × event) :=
  tr.filter (fun te => decide (te.2 = .list true) || decide (te.2 = .list false))

/-- Where a call of `Stop` stands. -/
inductive stopPc where
  /-- About to call `m.cancel()`. -/
  | cancel
  /-- In `m.waitForCancel.Wait()`. -/
  | wait
  /-- About to call `m.gs.GracefulStop()`. -/
  | gsStop
  /-- About to call `m.cs.GracefulStop(m.ctx)`. -/
  | csStop
  /-- At the test of `m.lis`. -/
  | remove
  /-- Returned with a nil error, the only value `Stop` returns. -/
  | returned
deriving DecidableEq, Repr

/-- The module at run time: its fields, the goroutines of `Start` that use the
cancellation signal or the wait group, the call of `Stop` in progress, whether
the process has panicked, and the actions taken so far. The goroutine that
closes the listeners is at position 0 while it waits for `ctx.Done()`, at 1 to
3 before each `Close()`, at 4 to 6 before each `Done()` and at 7 when ended. -/
structure World where
  m : mod
  closer : Option Nat
  warm : Option warmState
  stop : Option stopPc
  panicked : Bool
  trace : List (thread × event)
deriving DecidableEq, Repr

/-- Appends an action to the trace. -/
def World.log (w : World) (t : thread) (e : event) : World :=
  { w with trace := w.trace ++ [(t, e)] }

/-- The call `m.waitForCancel.Done()`: the counter goes down by one and the
call panics when that makes it negative. -/
def World.wgDone (w : World) : World :=
  if w.m.waitForCancel ≤ 0 then
    { w with panicked := true }
  else
    { w with m := { w.m with waitForCancel := w.m.waitForCancel - 1 } }

/-- One step of a call of `Stop` (method `Stop`, statement by statement).
`Wait()` only returns when the counter is zero; calling the nil `m.cancel`
panics. -/
def World.stepStop (w : World) : World :=
  match w.stop with
  | none => w
  | some .cancel =>
    if w.m.cancel then
      ({ w with m := w.m.fireCancel, stop := some .wait }).log .stop .cancel
    else
      { w with panicked := true }
  | some .wait =>
    if w.m.waitForCancel = 0 then
      ({ w with stop := some .gsStop }).log .stop .waitReturned
    else
      w
  | some .gsStop => ({ w with stop := some .csStop }).log .stop .gsGracefulStop
  | some .csStop => ({ w with stop := some .remove }).log .stop .csGracefulStop
  | some .remove =>
    match w.m.lis with
    | none => { w with stop := some .returned }
    | some lis =>
      if lis.network = protoUnix then
        ({ w with stop := some .returned }).log .stop (.removeAll lis.address)
      else
        { w with stop := some .returned }
  | some .returned => w

/-- One step of the goroutine that closes the derived listeners. -/
def World.stepCloser (w : World) : World :=
  match w.closer with
  | none => w
  | some 0 => if w.m.ctxDone then ({ w with closer := some 1 }).log .closer .ctxDone else w
  | some 1 => ({ w with closer := some 2 }).log .closer (.close .httpl)
  | some 2 => ({ w with closer := some 3 }).log .closer (.close .grpcl)
  | some 3 => ({ w with closer := some 4 }).log .closer (.close .http2)
  | some 4 => (({ w with closer := some 5 }).log .closer .wgDone).wgDone
  | some 5 => (({ w with closer := some 6 }).log .closer .wgDone).wgDone
  | some 6 => (({ w with closer := some 7 }).log .closer .wgDone).wgDone
  | some _ => w

/-- One step of the warmup goroutine inside the module. -/
def World.stepWarm (probe : Nat → Bool) (w : World) : World :=
  match w.warm with
  | none => w
  | some s =>
    match warmStep probe w.m.ctxDone s with
    | (s', some e, true) => (({ w with warm := some s' }).log .warmup e).wgDone
    | (s', some e, false) => ({ w with warm := some s' }).log .warmup e
    | (_, none, _) => w

/-- One step of the thread chosen by the scheduler; nothing runs after a
panic. -/
def World.step (probe : Nat → Bool) (w : World) (t : thread) : World :=
  if w.panicked then w
  else
    match t with
    | .stop => w.stepStop
    | .closer => w.stepCloser
    | .warmup => w.stepWarm probe

/-- The module run under a schedule: the list of the threads that take the
successive steps. -/
def World.run (probe : Nat → Bool) (w : World) (schedule : List thread) : World :=
  schedule.foldl (World.step probe) w

/-- The module right after `Start` has returned with the given module state and
calls: the goroutines it started are at their first statement and no call of
`Stop` is in progress. -/
def World.started (m : mod) (es : List effect) : World :=
  { m := m
    closer := if goroutine.closeOnCancel ∈ startedGoroutines es then some 0 else none
    warm := if goroutine.dockerVolumeAPI ∈ startedGoroutines es then some warmState.init else none
    stop := none
    panicked := false
    trace := [] }

/-- A call of `Stop` begins. -/
def World.callStop (w : World) : World :=
  { w with stop := some .cancel }

/-- The actions of the callers of `Stop` in a trace. -/
def stopEvents (tr : List (thread × event)) : List event :=
  (tr.filter (fun te => decide (te.1 = .stop))).map Prod.snd

/-- The actions `Stop` goes through when it runs to its end on module `m`. -/
def stopSequence (m : mod) : List event :=
  [.cancel, .waitReturned, .gsGracefulStop, .csGracefulStop] ++
    (match m.lis with
     | none => []
     | some lis => if lis.network = protoUnix then [.removeAll lis.address] else [])

/-! ## The line-oriented log adapter -/

/-- Constant `bufio.MaxScanTokenSize`, the largest buffer a `bufio.Scanner`
made by `bufio.NewScanner` grows to. -/
def MaxScanTokenSize : Nat := 64 * 1024

/-- Constant `maxConsecutiveEmptyReads` of package `bufio`. -/
def maxConsecutiveEmptyReads : Nat := 100

/-- Function `dropCR` of package `bufio`: drops one trailing carriage return. -/
def dropCR (data : List Nat) : List Nat :=
  if data.getLast? = some 13 then data.dropLast else data

/-- The goroutine of `newLogger`, a `bufio.Scanner` with the default line
splitter reading from the pipe: the bytes read and not yet returned as a line,
the number of reads in a row that returned no byte, and whether `Scan` has
returned false, which ends the goroutine. -/
structure Scanner where
  pending : List Nat
  emptyReads : Nat
  stopped : Bool
deriving DecidableEq, Repr

/-- The scanner takes one byte from the pipe. A newline (10) completes the
pending line, which `Scan` returns without its end-of-line marker. Any other
byte joins the pending data; when that fills the largest buffer without a
newline in it, `Scan` fails with `ErrTooLong` and returns false. The second
component lists the texts `scan.Text()` returns in answer. -/
def Scanner.readByte (s : Scanner) (b : Nat) : Scanner × List (List Nat) :=
  if b = 10 then
    ({ pending := [], emptyReads := 0, stopped := false }, [dropCR s.pending])
  else if MaxScanTokenSize ≤ s.pending.length + 1 then
    ({ pending := s.pending ++ [b], emptyReads := 0, stopped := true }, [])
  else
    ({ pending := s.pending ++ [b], emptyReads := 0, stopped := false }, [])

/-- The scanner takes the bytes of one write from the pipe, as far as it gets:
the last component tells whether every byte was taken. Once `Scan` has
returned false nothing reads the pipe any more. -/
def Scanner.readBytes : Scanner → List Nat → Scanner × List (List Nat) × Bool
  | s, [] => (s, [], true)
  | s, b :: bs =>
    if s.stopped then (s, [], false)
    else
      let r := s.readByte b
      let rest := Scanner.readBytes r.1 bs
      (rest.1, r.2 ++ rest.2.1, rest.2.2)

/-- The scanner's read meets a write of no bytes and returns zero. After more
than `maxConsecutiveEmptyReads` such reads in a row `Scan` gives up with
`io.ErrNoProgress`, returns the pending data, if any, as a last line, and then
returns false. -/
def Scanner.readEmpty (s : Scanner) : Scanner × List (List Nat) :=
  if maxConsecutiveEmptyReads < s.emptyReads + 1 then
    ({ pending := [], emptyReads := s.emptyReads + 1, stopped := true },
      if s.pending = [] then [] else [dropCR s.pending])
  else
    ({ s with emptyReads := s.emptyReads + 1 }, [])

/-- The value made by `newLogger`: the write end of the pipe, whose behaviour
is fixed by the state of the scanner goroutine at the read end. -/
structure logger where
  scan : Scanner
deriving DecidableEq, Repr

/-- Function `newLogger`: a fresh pipe and a scanner goroutine that has read
nothing yet. -/
def newLogger : logger :=
  { scan := { pending := [], emptyReads := 0, stopped := false } }

/-- Method `Write`, which is the pipe's `Write`: it returns once the reader has
taken every byte and then reports all of them written with a nil error; if the
reader never takes them it never returns (`none`). The second component lists
the arguments of the calls `f(scan.Text())` that the write leads to. -/
def logger.Write (l : logger) (data : List Nat) : logger × List (List Nat) × Option Nat :=
  if l.scan.stopped then (l, [], none)
  else if data = [] then
    let r := l.scan.readEmpty
    ({ scan := r.1 }, r.2, some 0)
  else
    let r := l.scan.readBytes data
    ({ scan := r.1 }, r.2.1, if r.2.2 then some data.length else none)

/-- A sequence of calls of `Write` on one logger: the arguments of all the
callback calls in order, and what each `Write` returns. -/
def logger.writes : logger → List (List Nat) → List (List Nat) × List (Option Nat)
  | _, [] => ([], [])
  | l, data :: chunks =>
    let r := l.Write data
    let rest := logger.writes r.1 chunks
    (r.2.1 ++ rest.1, r.2.2 :: rest.2)

/-- The complete lines of a byte sequence: the pieces between newlines, without
the piece after the last newline. -/
def completeLines (bytes : List Nat) : List (List Nat) :=
  (bytes.splitOn 10).dropLast

/-- The longest run of empty chunks in a sequence of chunks. -/
def longestEmptyRun : List (List Nat) → Nat → Nat
  | [], cur => cur
  | data :: chunks, cur =>
    if data = [] then longestEmptyRun chunks (cur + 1)
    else max cur (longestEmptyRun chunks 0)

/-! ## Sample inputs and auxiliary definitions -/

/-- A configuration with the Docker bridge enabled (the default). -/
def sampleConfig : Config :=
  { Name := "default-csi", Description := "The default CSI module.",
    Address := " unix:///run/docker/plugins/rexray.sock ", csiDriver := "libstorage",
    csiNoDocker := false }

/-- A `newService` that knows the driver `libstorage` only. -/
def sampleNewService (name driver : String) : Option csiService :=
  if driver = "libstorage" then some { name := name, driver := driver } else none

/-- A stand-in for `gocsi.ParseProtoAddr` that maps every address to the
socket file of the Docker plug-in. -/
def sampleParse (_ : String) : Except String (String × String) :=
  .ok ("unix", "/run/docker/plugins/rexray.sock")

/-- A stand-in for `net.Listen` that always binds. -/
def sampleListen (proto addr : String) : Except String Listener :=
  .ok { network := proto, address := addr }

/-- A module as `newModule` makes it, with the Docker bridge enabled. -/
def sampleMod : mod :=
  { config := { sampleConfig with Address := "unix:///run/docker/plugins/rexray.sock" },
    name := "default-csi", addr := "unix:///run/docker/plugins/rexray.sock",
    desc := "The default CSI module.", cs := { name := "default-csi", driver := "libstorage" },
    lis := none, cancel := false, ctxDone := false, waitForCancel := 0 }

/-- The same module with `csi.nodocker` set. -/
def sampleModNoDocker : mod :=
  { sampleMod with config := { sampleMod.config with csiNoDocker := true } }

/-- An HTTP/2 connection whose first header frame carries two `content-type`
fields, the second of which is the gRPC one. -/
def sampleGrpcConn : conn :=
  { bytes := clientPreface
    frames := [.settings false,
      .headers [(":method", "POST"), ("content-type", "text/plain"),
        ("content-type", "application/grpc")] true] }

/-- An HTTP/2 connection without the gRPC content type. -/
def sampleHttp2Conn : conn :=
  { bytes := clientPreface
    frames := [.settings false, .headers [(":method", "GET"), ("content-type", "text/plain")] true] }

/-- An HTTP/1 request of the Docker volume plug-in API. -/
def sampleHttp1Conn : conn :=
  { bytes := "POST /VolumeDriver.List HTTP/1.1".data, frames := [] }

/-- An HTTP/1 request with a method that is not among the default ones. -/
def samplePatchConn : conn :=
  { bytes := "PATCH /volumes HTTP/1.1".data, frames := [] }

/-- The run of the warmup loop that the specification describes for a probe
that fails `n` times and then succeeds, from step `t` on: `n` failed calls,
each followed by the one-second wait, then the successful call and the call of
`Done()`. -/
def failThenSucceedTrace : Nat → Nat → List (Nat × event)
  | 0, t => [(t, .list true), (t + 1, .wgDone)]
  | n + 1, t => (t, .list false) :: (t + 1, .timeAfter1s) :: failThenSucceedTrace n (t + 2)

/-- The units of the wait group that the goroutine closing the listeners has
yet to release, by its position. -/
def closerOwes : Option Nat → Int
  | none => 0
  | some pc => if pc ≤ 4 then 3 else if pc = 5 then 2 else if pc = 6 then 1 else 0

/-- The unit of the wait group registered for the warmup loop, as long as the
loop has not called `Done()`. -/
def warmHolds : Option warmState → Int
  | none => 0
  | some s => if s.pc = .finished then 0 else 1

/-- The actions a call of `Stop` on module `m` has taken when it stands at a
given position. -/
def stopProgress (m : mod) : Option stopPc → List event
  | none => []
  | some .cancel => []
  | some .wait => [.cancel]
  | some .gsStop => [.cancel, .waitReturned]
  | some .csStop => [.cancel, .waitReturned, .gsGracefulStop]
  | some .remove => [.cancel, .waitReturned, .gsGracefulStop, .csGracefulStop]
  | some .returned => stopSequence m

/-- The bookkeeping that holds of a started module at every moment: no panic
has occurred, `m.cancel` is set, and the counter of the wait group is the sum
of the units the two goroutines have yet to release. -/
def World.Consistent (w : World) : Prop :=
  w.panicked = false ∧ w.m.cancel = true ∧
    w.m.waitForCancel = closerOwes w.closer + warmHolds w.warm

/-- A started module whose wait group has come down to zero. -/
def World.Quiet (w : World) : Prop :=
  w.Consistent ∧ w.m.waitForCancel = 0

/-- Whether a call of `Stop` has got past `m.waitForCancel.Wait()`. -/
def pastWait : Option stopPc → Bool
  | some .gsStop => true
  | some .csStop => true
  | some .remove => true
  | some .returned => true
  | _ => false

/-- The warmup loop is there and no call of `bridge.List()` has succeeded. -/
def World.Probing (w : World) : Prop :=
  ∃ s, w.warm = some s ∧ s.pc ≠ .done ∧ s.pc ≠ .finished

/-- The sample module right after a successful `Start`. -/
def sampleStarted : World :=
  World.started (sampleMod.Start sampleParse sampleListen).1
    (sampleMod.Start sampleParse sampleListen).2.1

/-- The sample module with `csi.nodocker` set, right after a successful
`Start`. -/
def sampleStartedNoDocker : World :=
  World.started (sampleModNoDocker.Start sampleParse sampleListen).1
    (sampleModNoDocker.Start sampleParse sampleListen).2.1

/-- A probe that never succeeds. -/
def probeNever (_ : Nat) : Bool := false

/-- The schedule that gives `rounds` times a step to the warmup loop, to the
caller of `Stop` and to the goroutine closing the listeners, in turn. -/
def roundRobin (rounds : Nat) : List thread :=
  (List.replicate rounds [thread.warmup, .stop, .closer]).flatten

/-- The situation of a module whose warmup probe has not succeeded: the
bookkeeping holds, the loop has not left through `break`, no call of `Stop` has
got past the wait, the loop has not called `Done()` and no wait has returned. -/
def World.Stuck (w : World) : Prop :=
  w.Consistent ∧ w.Probing ∧ pastWait w.stop = false ∧
    (thread.warmup, event.wgDone) ∉ w.trace ∧ (thread.stop, event.waitReturned) ∉ w.trace

/-- The bookkeeping holds and a call of `Stop` that has got past the wait has
found the counter at zero, where it has stayed. -/
def World.Settled (w : World) : Prop :=
  w.Consistent ∧ (pastWait w.stop = true → w.m.waitForCancel = 0)

/-- The module at the end of a call of `Stop` that began in `w` and took all
its steps. -/
def World.afterStop (w : World) : World :=
  { w with
    m := w.m.fireCancel
    stop := some .returned
    trace := w.trace ++ (stopSequence w.m).map (fun e => (thread.stop, e)) }

/-- The module after a call of `Stop`: the goroutines run under the schedule
`before`, the call begins, and everything runs under the schedule `during`. -/
def World.firstStop (w : World) (probe : Nat → Bool) (before during : List thread) : World :=
  ((w.run probe before).callStop).run probe during

/-- The module after a second call of `Stop` that begins when the first has
ended and runs under the schedule `after`. -/
def World.secondStop (w : World) (probe : Nat → Bool) (before during after : List thread) :
    World :=
  ((w.firstStop probe before during).callStop).run probe after

/-- The complete lines of `pending ++ bytes`, for pending data without a
newline, computed byte by byte. -/
def linesFrom (pending : List Nat) : List Nat → List (List Nat)
  | [] => []
  | b :: bs => if b = 10 then pending :: linesFrom [] bs else linesFrom (pending ++ [b]) bs

/-- The piece of `pending ++ bytes` after its last newline, for pending data
without a newline. -/
def restFrom (pending : List Nat) : List Nat → List Nat
  | [] => pending
  | b :: bs => if b = 10 then restFrom [] bs else restFrom (pending ++ [b]) bs

/-- The address after removing leading and trailing space characters, in the
words of the specification: `host` is what is left of `s` when a run of spaces
is taken off each end, and `host` itself neither begins nor ends with a
space. -/
def isTrimmed (s host : String) : Prop :=
  (∃ k j, s.data = List.replicate k ' ' ++ host.data ++ List.replicate j ' ') ∧
    host.data.head? ≠ some ' ' ∧ host.data.getLast? ≠ some ' '

/-! ## Properties of `newModule` -/

theorem invalid_driver_ne_host_required (d : String) :
    "invalid csi driver: " ++ d ≠ "error: host is required" := by
  intro h
  have := congrArg String.data h
  simp [String.data_append] at this

theorem trimLeftChars_eq_nil_iff (s : List Char) :
    trimLeftChars [' '] s = [] ↔ ∀ ch ∈ s, ch = ' ' := by
  induction s with
  | nil => simp [trimLeftChars]
  | cons a s ih =>
    by_cases ha : a = ' '
    · simp [trimLeftChars, ha, ih]
    · simp [trimLeftChars, ha]

theorem trimLeftChars_all_spaces (s : List Char) :
    (∀ ch ∈ trimLeftChars [' '] s, ch = ' ') ↔ ∀ ch ∈ s, ch = ' ' := by
  induction s with
  | nil => simp [trimLeftChars]
  | cons a s ih =>
    by_cases ha : a = ' '
    · simp [trimLeftChars, ha, ih]
    · simp [trimLeftChars, ha]

/-- The trimmed address is empty exactly when the address is made of spaces
only. -/
theorem stringsTrim_eq_empty_iff (s : String) :
    stringsTrim s " " = "" ↔ ∀ ch ∈ s.data, ch = ' ' := by
  have h1 : stringsTrim s " " = "" ↔
      trimLeftChars [' '] (trimLeftChars [' '] s.data).reverse = [] := by
    unfold stringsTrim
    constructor
    · intro h
      have := congrArg String.data h
      simpa using this
    · intro h
      show String.mk (trimLeftChars [' '] (trimLeftChars [' '] s.data).reverse).reverse = ""
      rw [h]
      rfl
  rw [h1, trimLeftChars_eq_nil_iff]
  simp only [List.mem_reverse]
  exact trimLeftChars_all_spaces s.data

/-- A module made by `newModule` has its wait group at zero, no listener and no
cancel function yet. -/
theorem newModule_fresh (newService : String → String → Option csiService) (c : Config)
    (m : mod) (h : (newModule newService c).2 = .ok m) :
    m.waitForCancel = 0 ∧ m.lis = none ∧ m.cancel = false ∧ m.ctxDone = false := by
  by_cases hh : stringsTrim c.Address " " = ""
  · simp [newModule, hh] at h
  · cases hs : newService c.Name c.csiDriver with
    | none => simp [newModule, hh, hs] at h
    | some cs =>
      simp only [newModule, hh, hs, if_false, Except.ok.injEq] at h
      subst h
      exact ⟨rfl, rfl, rfl, rfl⟩

theorem trimLeftChars_of_head (t : List Char) (ht : t.head? ≠ some ' ') :
    trimLeftChars [' '] t = t := by
  cases t with
  | nil => rfl
  | cons a t =>
    have ha : a ≠ ' ' := fun h => ht (by simp [h])
    simp [trimLeftChars, ha]

theorem trimLeftChars_replicate_append (k : Nat) (t : List Char) (ht : t.head? ≠ some ' ') :
    trimLeftChars [' '] (List.replicate k ' ' ++ t) = t := by
  induction k with
  | zero => simpa using trimLeftChars_of_head t ht
  | succ k ih => simpa [List.replicate_succ, trimLeftChars] using ih

theorem trimLeftChars_decompose (s : List Char) :
    ∃ k, s = List.replicate k ' ' ++ trimLeftChars [' '] s ∧
      (trimLeftChars [' '] s).head? ≠ some ' ' := by
  induction s with
  | nil => exact ⟨0, rfl, by simp [trimLeftChars]⟩
  | cons a s ih =>
    by_cases ha : a = ' '
    · obtain ⟨k, hk, hh⟩ := ih
      refine ⟨k + 1, ?_, ?_⟩
      · simp only [trimLeftChars, ha, List.contains_cons, beq_self_eq_true, Bool.true_or, if_true,
          List.replicate_succ, List.cons_append]
        rw [← hk]
      · simpa [trimLeftChars, ha] using hh
    · exact ⟨0, by simp [trimLeftChars, ha], by simp [trimLeftChars, ha]⟩

/-- The model of `strings.Trim(s, " ")` returns the address without its leading
and trailing spaces. -/
theorem isTrimmed_stringsTrim (s : String) : isTrimmed s (stringsTrim s " ") := by
  obtain ⟨k, hk, hkh⟩ := trimLeftChars_decompose s.data
  obtain ⟨j, hj, hjh⟩ := trimLeftChars_decompose (trimLeftChars [' '] s.data).reverse
  have hdata : (stringsTrim s " ").data =
      (trimLeftChars [' '] (trimLeftChars [' '] s.data).reverse).reverse := rfl
  have h1 : trimLeftChars [' '] s.data =
      (trimLeftChars [' '] (trimLeftChars [' '] s.data).reverse).reverse ++
        List.replicate j ' ' := by
    have := congrArg List.reverse hj
    simpa using this
  refine ⟨⟨k, j, ?_⟩, ?_, ?_⟩
  · rw [hdata, List.append_assoc, ← h1]
    exact hk
  · rw [hdata]
    intro hh
    apply hkh
    rw [h1]
    cases hr : (trimLeftChars [' '] (trimLeftChars [' '] s.data).reverse).reverse with
    | nil => rw [hr] at hh; simp at hh
    | cons a t => rw [hr] at hh; simpa using hh
  · rw [hdata, List.getLast?_reverse]
    exact hjh

/-- The address without its leading and trailing spaces is what the model of
`strings.Trim(s, " ")` returns, and nothing else. -/
theorem stringsTrim_of_isTrimmed (s host : String) (h : isTrimmed s host) :
    stringsTrim s " " = host := by
  obtain ⟨⟨k, j, hkj⟩, hh, hl⟩ := h
  have hgoal : (trimLeftChars [' '] (trimLeftChars [' '] s.data).reverse).reverse = host.data := by
    rw [hkj]
    by_cases he : host.data = []
    · have : List.replicate k ' ' ++ host.data ++ List.replicate j ' ' =
          List.replicate (k + j) ' ' ++ [] := by
        rw [he, List.append_nil, List.append_nil, List.replicate_add]
      rw [this, trimLeftChars_replicate_append _ _ (by simp)]
      simp [trimLeftChars, he]
    · have h1 : (host.data ++ List.replicate j ' ').head? ≠ some ' ' := by
        rw [List.head?_append_of_ne_nil _ he]
        exact hh
      rw [List.append_assoc, trimLeftChars_replicate_append _ _ h1, List.reverse_append,
        List.reverse_replicate,
        trimLeftChars_replicate_append _ _ (by rw [List.head?_reverse]; exact hl),
        List.reverse_reverse]
  show String.mk (trimLeftChars [' '] (trimLeftChars [' '] s.data).reverse).reverse = host
  rw [hgoal]

/-- What `newModule` returns, in terms of the model of `strings.Trim`. -/
theorem newModule_by_trim (newService : String → String → Option csiService) (c : Config) :
    ((newModule newService c).2 = .error "error: host is required" ↔
        stringsTrim c.Address " " = "") ∧
    (stringsTrim c.Address " " = "" →
      newModule newService c = (c, .error "error: host is required")) ∧
    (stringsTrim c.Address " " ≠ "" →
      (∀ cs, newService c.Name c.csiDriver = some cs →
        ∃ m, newModule newService c = ({ c with Address := stringsTrim c.Address " " }, .ok m) ∧
          m.Address = stringsTrim c.Address " " ∧ m.Name = c.Name ∧
          m.Description = c.Description) ∧
      (newService c.Name c.csiDriver = none →
        newModule newService c = ({ c with Address := stringsTrim c.Address " " },
          .error ("invalid csi driver: " ++ c.csiDriver)))) := by
  by_cases h : stringsTrim c.Address " " = ""
  · simp [newModule, h]
  · refine ⟨?_, fun h' => absurd h' h, fun _ => ⟨?_, ?_⟩⟩
    · simp only [newModule, h, if_false, iff_false]
      cases hs : newService c.Name c.csiDriver with
      | none => simp [invalid_driver_ne_host_required]
      | some cs => simp
    · intro cs hcs
      simp [newModule, h, hcs, mod.Address, mod.Name, mod.Description]
    · intro hcs
      simp [newModule, h, hcs]

/-- C9: every configured address has exactly one trimmed form `host`, the
address without its leading and trailing spaces. `newModule` returns the error
"error: host is required" (and no module, leaving the configuration as it is)
exactly when `host` is empty, which is when the address holds nothing but
spaces; otherwise, when `newService` recognises the driver, it returns a
module whose `Address()` is `host` and whose `Name()` and `Description()` are
the configured ones, and the configuration holds `host` as its address; when
the driver is not recognised it returns an "invalid csi driver" error and no
module. -/
theorem newModule_spec (newService : String → String → Option csiService) (c : Config) :
    (∃ host, isTrimmed c.Address host) ∧
    ∀ host, isTrimmed c.Address host →
      ((newModule newService c).2 = .error "error: host is required" ↔ host = "") ∧
      (host = "" ↔ ∀ ch ∈ c.Address.data, ch = ' ') ∧
      (host = "" → newModule newService c = (c, .error "error: host is required")) ∧
      (host ≠ "" →
        (∀ cs, newService c.Name c.csiDriver = some cs →
          ∃ m, newModule newService c = ({ c with Address := host }, .ok m) ∧
            m.Address = host ∧ m.Name = c.Name ∧ m.Description = c.Description) ∧
        (newService c.Name c.csiDriver = none →
          newModule newService c = ({ c with Address := host },
            .error ("invalid csi driver: " ++ c.csiDriver)))) := by
  refine ⟨⟨_, isTrimmed_stringsTrim c.Address⟩, fun host hhost => ?_⟩
  have hEq := stringsTrim_of_isTrimmed c.Address host hhost
  have hT := newModule_by_trim newService c
  rw [hEq] at hT
  refine ⟨hT.1, ?_, hT.2.1, hT.2.2⟩
  rw [← hEq]
  exact stringsTrim_eq_empty_iff c.Address

/-- Witness of `newModule_spec` on the sample configuration, whose address has a
space at each end: the trimmed address is not empty, the driver is recognised,
and the module and the configuration carry the trimmed address. -/
theorem newModule_spec_witness :
    isTrimmed sampleConfig.Address "unix:///run/docker/plugins/rexray.sock" ∧
    ∃ m, newModule sampleNewService sampleConfig =
        ({ sampleConfig with Address := "unix:///run/docker/plugins/rexray.sock" }, .ok m) ∧
      m.Address = "unix:///run/docker/plugins/rexray.sock" ∧ m.Name = sampleConfig.Name ∧
      m.Description = sampleConfig.Description :=
  have hw : isTrimmed sampleConfig.Address "unix:///run/docker/plugins/rexray.sock" :=
    ⟨⟨1, 1, by decide⟩, by decide, by decide⟩
  ⟨hw,
    (((newModule_spec sampleNewService sampleConfig).2 _ hw).2.2.2 (by decide)).1
      { name := "default-csi", driver := "libstorage" } (by decide)⟩

/-! ## Properties of the serve-error handler -/

/-- C4 fails as stated: with multiplexing enabled an error that is not a
listener-closed error is logged as a warning and is not fatal, a
listener-closed error is not logged at all, and with multiplexing disabled a
closed-connection error is not fatal. -/
theorem gsServeResult_counterexample :
    gsServeResult true (some (.other "accept: too many open files")) =
        .warn (.other "accept: too many open files") ∧
    gsServeResult true (some (.other "mux: listener closed")) = .silent ∧
    gsServeResult false (some (.other "accept: use of closed network connection")) = .silent := by
  decide

/-- C4 as amended: a nil error and `grpc.ErrServerStopped` are ignored in both
modes; with multiplexing disabled any other error is fatal unless its text
contains "use of closed network connection", in which case it is ignored; with
multiplexing enabled no error is fatal: one whose text contains "mux: listener
closed" is ignored without a log entry and any other is logged as a warning. -/
theorem gsServeResult_spec (isMultiplexed : Bool) (msg : String) (err : Option goError)
    (e : goError) :
    gsServeResult isMultiplexed none = .silent ∧
    gsServeResult isMultiplexed (some .ErrServerStopped) = .silent ∧
    gsServeResult false (some (.other msg)) =
      (if stringsContains msg "use of closed network connection" then .silent
       else .panic (.other msg)) ∧
    gsServeResult true (some (.other msg)) =
      (if stringsContains msg "mux: listener closed" then .silent
       else .warn (.other msg)) ∧
    gsServeResult true err ≠ .panic e := by
  refine ⟨rfl, ?_, ?_, ?_, ?_⟩
  · cases isMultiplexed <;> simp [gsServeResult]
  · by_cases h : stringsContains msg "use of closed network connection" <;>
      simp [gsServeResult, goError.Error, h]
  · by_cases h : stringsContains msg "mux: listener closed" <;>
      simp [gsServeResult, goError.Error, h]
  · cases err with
    | none => simp [gsServeResult]
    | some e' =>
      cases e' with
      | ErrServerStopped => simp [gsServeResult]
      | other m =>
        by_cases h : stringsContains m "mux: listener closed" <;>
          simp [gsServeResult, goError.Error, h]

/-! ## Properties of `Start` -/

theorem registeredUnits_append (a b : List effect) :
    registeredUnits (a ++ b) = registeredUnits a + registeredUnits b := by
  induction a with
  | nil => simp [registeredUnits]
  | cons e a ih => cases e <;> simp [registeredUnits, ih, Nat.add_assoc]

theorem declaredRules_append (a b : List effect) :
    declaredRules (a ++ b) = declaredRules a ++ declaredRules b := by
  induction a with
  | nil => simp [declaredRules]
  | cons e a ih => cases e <;> simp [declaredRules, ih]

theorem startedGoroutines_append (a b : List effect) :
    startedGoroutines (a ++ b) = startedGoroutines a ++ startedGoroutines b := by
  induction a with
  | nil => simp [startedGoroutines]
  | cons e a ih => cases e <;> simp [startedGoroutines, ih]

/-- The calls `Start` makes when it returns a nil error: a prefix that neither
touches the wait group nor declares a rule nor starts a goroutine, then the
calls of the mode. -/
theorem Start_ok_form {parse : String → Except String (String × String)}
    {listen : String → String → Except String Listener} {m : mod}
    (h : (m.Start parse listen).2.2 = none) :
    ∃ l pre, registeredUnits pre = 0 ∧ declaredRules pre = [] ∧ startedGoroutines pre = [] ∧
      m.Start parse listen =
        if m.config.csiNoDocker then
          ({ m with cancel := true, lis := some l }, pre ++ [.go (.csiEndpoint false)], none)
        else
          ({ m with cancel := true, lis := some l, waitForCancel := m.waitForCancel + 3 + 1 },
            pre ++
              [.cmuxNew,
               .cmuxMatch .HTTP1Fast .httpl,
               .cmuxMatch
                 (.HTTP2MatchHeaderFieldSendSettings "content-type" "application/grpc") .grpcl,
               .cmuxMatch .HTTP2 .http2,
               .wgAdd 3,
               .go .closeOnCancel,
               .go (.csiEndpoint true), .wgAdd 1, .go .dockerVolumeAPI, .go .cmuxServe],
            none) := by
  unfold mod.Start at h ⊢
  cases hp : parse { m with cancel := true }.Address with
  | error err => simp [hp] at h
  | ok pa =>
    obtain ⟨proto, addr⟩ := pa
    cases hl : listen proto addr with
    | error err => simp [hp, hl] at h
    | ok l =>
      refine ⟨l, [effect.withCancel, .loadGoPlugins] ++
        (if proto = protoUnix then [.mkdirAllDir addr, .removeAll addr] else []) ++
        [.listen proto addr], ?_, ?_, ?_, ?_⟩
      · by_cases hu : proto = protoUnix <;> simp [hu, registeredUnits]
      · by_cases hu : proto = protoUnix <;> simp [hu, declaredRules]
      · by_cases hu : proto = protoUnix <;> simp [hu, startedGoroutines]
      · cases hn : m.config.csiNoDocker <;> simp [hp, hl, hn]

/-- C3 fails as stated: with multiplexing enabled `Start` registers four units
on the wait group while it creates three derived listeners. -/
theorem Start_units_counterexample :
    sampleMod.config.csiNoDocker = false ∧
    (sampleMod.Start sampleParse sampleListen).2.2 = none ∧
    registeredUnits (sampleMod.Start sampleParse sampleListen).2.1 = 4 ∧
    (sampleMod.Start sampleParse sampleListen).1.waitForCancel = 4 ∧
    (declaredRules (sampleMod.Start sampleParse sampleListen).2.1).length = 3 := by
  decide

/-- C3 as amended: when `Start` succeeds, the units it registers on the wait
group are 0 with multiplexing disabled and 4 with multiplexing enabled, one
for each of the 3 derived listeners and one for the warmup loop; the derived
listeners created are 0 and 3; and the counter of the module has grown by the
units registered. -/
theorem Start_units (parse : String → Except String (String × String))
    (listen : String → String → Except String Listener) (m : mod)
    (h : (m.Start parse listen).2.2 = none) :
    registeredUnits (m.Start parse listen).2.1 = (if m.config.csiNoDocker then 0 else 3 + 1) ∧
    (declaredRules (m.Start parse listen).2.1).length = (if m.config.csiNoDocker then 0 else 3) ∧
    (m.Start parse listen).1.waitForCancel =
      m.waitForCancel + registeredUnits (m.Start parse listen).2.1 := by
  obtain ⟨l, pre, h1, h2, h3, hs⟩ := Start_ok_form h
  rw [hs]
  cases hn : m.config.csiNoDocker
  · simp [registeredUnits_append, declaredRules_append, h1, h2, registeredUnits, declaredRules]
    omega
  · simp [registeredUnits_append, declaredRules_append, h1, h2, registeredUnits, declaredRules]

/-- Witness of `Start_units` on the sample module with `csi.nodocker` set. -/
theorem Start_units_witness :
    registeredUnits (sampleModNoDocker.Start sampleParse sampleListen).2.1 = 0 ∧
    (declaredRules (sampleModNoDocker.Start sampleParse sampleListen).2.1).length = 0 ∧
    (sampleModNoDocker.Start sampleParse sampleListen).1.waitForCancel =
      sampleModNoDocker.waitForCancel +
        registeredUnits (sampleModNoDocker.Start sampleParse sampleListen).2.1 :=
  Start_units sampleParse sampleListen sampleModNoDocker (by decide)

/-- A connection that opens with the HTTP/2 client preface does not begin with
any of the HTTP/1 method names. -/
theorem preface_not_http1 (c : conn) (h : hasPrefix c.bytes clientPreface = true) :
    cmuxMatcher.HTTP1Fast.accepts c = false := by
  have hp : clientPreface = 'P' :: 'R' :: clientPreface.drop 2 := by decide
  rw [hp] at h
  rcases hb : c.bytes with _ | ⟨a, _ | ⟨b, rest⟩⟩
  · rw [hb] at h; simp [hasPrefix] at h
  · rw [hb] at h; simp [hasPrefix] at h
  · rw [hb] at h
    simp only [hasPrefix, Bool.and_eq_true, beq_iff_eq] at h
    obtain ⟨ha, hb', _⟩ := h
    subst ha
    subst hb'
    have hmeth : defaultHTTPMethods.map String.data =
        [['O', 'P', 'T', 'I', 'O', 'N', 'S'], ['G', 'E', 'T'], ['H', 'E', 'A', 'D'],
         ['P', 'O', 'S', 'T'], ['P', 'U', 'T'], ['D', 'E', 'L', 'E', 'T', 'E'],
         ['T', 'R', 'A', 'C', 'E'], ['C', 'O', 'N', 'N', 'E', 'C', 'T']] := by decide
    have hany : ∀ (l : List String) (f : List Char → Bool),
        l.any (fun method => f method.data) = (l.map String.data).any f := by
      intro l f
      induction l with
      | nil => rfl
      | cons x xs ih => simp [List.any_cons, ih]
    show defaultHTTPMethods.any (fun method => hasPrefix c.bytes method.data) = false
    rw [hb, hany defaultHTTPMethods (hasPrefix ('P' :: 'R' :: rest)), hmeth]
    simp [hasPrefix]

/-- The header matcher passes over SETTINGS frames and frames of other types,
and accepts a header frame that holds a field of the wanted name and value,
wherever that field stands in the frame. -/
theorem matchHTTP2Field_of_mem (name value : String) (fields : List (String × String))
    (endHeaders : Bool) (rest : List http2Frame) (hmem : (name, value) ∈ fields) :
    ∀ (skipped : List http2Frame),
      (∀ f ∈ skipped, (∃ ack, f = .settings ack) ∨ f = .other) →
      matchHTTP2Field name value (skipped ++ .headers fields endHeaders :: rest) = true := by
  intro skipped
  induction skipped with
  | nil =>
    intro _
    have h1 : fields.any (fun hf => decide (hf.1 = name)) = true :=
      List.any_eq_true.2 ⟨(name, value), hmem, by simp⟩
    have h2 : fields.any (fun hf => decide (hf.1 = name) && decide (hf.2 = value)) = true :=
      List.any_eq_true.2 ⟨(name, value), hmem, by simp⟩
    simp [matchHTTP2Field, h1, h2]
  | cons f fs ih =>
    intro hs
    have hfs := ih (fun g hg => hs g (List.mem_cons_of_mem f hg))
    rcases hs f (List.mem_cons_self f fs) with ⟨ack, rfl⟩ | rfl
    · simpa [matchHTTP2Field] using hfs
    · simpa [matchHTTP2Field] using hfs

/-- The serve loop on the rules that `Start` declares with multiplexing
enabled. -/
theorem cmuxServe_rules (c : conn) :
    cmuxServe
        [(.HTTP1Fast, .httpl),
         (.HTTP2MatchHeaderFieldSendSettings "content-type" "application/grpc", .grpcl),
         (.HTTP2, .http2)] c =
      (if cmuxMatcher.HTTP1Fast.accepts c then [.httpl]
       else if hasPrefix c.bytes clientPreface then
         (if matchHTTP2Field "content-type" "application/grpc" c.frames then [.grpcl]
          else [.http2])
       else []) := by
  by_cases h1 : cmuxMatcher.HTTP1Fast.accepts c = true
  · simp [cmuxServe, h1]
  · by_cases h2 : hasPrefix c.bytes clientPreface = true
    · by_cases h3 : matchHTTP2Field "content-type" "application/grpc" c.frames = true <;>
        simp [cmuxServe, cmuxMatcher.accepts, h1, h2, h3]
    · simp [cmuxServe, cmuxMatcher.accepts, h1, h2]

/-- C10: when `Start` succeeds with multiplexing enabled, the rules are declared
in the order HTTP/1, HTTP/2 with header `content-type: application/grpc`,
generic HTTP/2; the bridge handler serves the HTTP/1 and generic HTTP/2
listeners and the gRPC server the gRPC one; the serve loop of the multiplexer
hands a connection that begins with an HTTP/1 method name to the HTTP/1
listener only, a connection that opens with the HTTP/2 preface to the gRPC
listener only when its headers match the gRPC content type and to the generic
HTTP/2 listener only otherwise (a header frame that holds a `content-type`
field with the value `application/grpc` matches, wherever the field stands in
the frame), and any other connection to no listener. With
multiplexing disabled the gRPC server is served on the raw listener, no rule
is declared and the only goroutine started is the one of the CSI endpoint. -/
theorem Start_wiring (parse : String → Except String (String × String))
    (listen : String → String → Except String Listener) (m : mod) (c : conn)
    (h : (m.Start parse listen).2.2 = none) :
    (m.config.csiNoDocker = false →
      declaredRules (m.Start parse listen).2.1 =
        [(.HTTP1Fast, .httpl),
         (.HTTP2MatchHeaderFieldSendSettings "content-type" "application/grpc", .grpcl),
         (.HTTP2, .http2)] ∧
      serversOn (m.Start parse listen).2.1 .httpl = [.dh] ∧
      serversOn (m.Start parse listen).2.1 .grpcl = [.gs] ∧
      serversOn (m.Start parse listen).2.1 .http2 = [.dh] ∧
      serversOn (m.Start parse listen).2.1 .l = [] ∧
      ((∃ method ∈ ["OPTIONS", "GET", "HEAD", "POST", "PUT", "DELETE", "TRACE", "CONNECT"],
          hasPrefix c.bytes (String.data method) = true) →
        cmuxServe (declaredRules (m.Start parse listen).2.1) c = [.httpl]) ∧
      (hasPrefix c.bytes clientPreface = true →
        cmuxServe (declaredRules (m.Start parse listen).2.1) c =
          (if matchHTTP2Field "content-type" "application/grpc" c.frames then [.grpcl]
           else [.http2])) ∧
      (hasPrefix c.bytes clientPreface = true →
        ∀ skipped fields endHeaders rest,
          (∀ f ∈ skipped, (∃ ack, f = http2Frame.settings ack) ∨ f = http2Frame.other) →
          c.frames = skipped ++ .headers fields endHeaders :: rest →
          ("content-type", "application/grpc") ∈ fields →
          cmuxServe (declaredRules (m.Start parse listen).2.1) c = [.grpcl]) ∧
      ((∀ method ∈ ["OPTIONS", "GET", "HEAD", "POST", "PUT", "DELETE", "TRACE", "CONNECT"],
          hasPrefix c.bytes (String.data method) = false) →
        hasPrefix c.bytes clientPreface = false →
        cmuxServe (declaredRules (m.Start parse listen).2.1) c = []) ∧
      (cmuxServe (declaredRules (m.Start parse listen).2.1) c).length ≤ 1) ∧
    (m.config.csiNoDocker = true →
      declaredRules (m.Start parse listen).2.1 = [] ∧
      startedGoroutines (m.Start parse listen).2.1 = [.csiEndpoint false] ∧
      serversOn (m.Start parse listen).2.1 .l = [.gs] ∧
      serversOn (m.Start parse listen).2.1 .httpl = [] ∧
      serversOn (m.Start parse listen).2.1 .grpcl = [] ∧
      serversOn (m.Start parse listen).2.1 .http2 = []) := by
  obtain ⟨l, pre, h1, h2, h3, hs⟩ := Start_ok_form h
  rw [hs]
  constructor
  · intro hn
    have hr : declaredRules (pre ++
        [effect.cmuxNew, .cmuxMatch .HTTP1Fast .httpl,
         .cmuxMatch (.HTTP2MatchHeaderFieldSendSettings "content-type" "application/grpc") .grpcl,
         .cmuxMatch .HTTP2 .http2, .wgAdd 3, .go .closeOnCancel,
         .go (.csiEndpoint true), .wgAdd 1, .go .dockerVolumeAPI, .go .cmuxServe]) =
        [(.HTTP1Fast, .httpl),
         (.HTTP2MatchHeaderFieldSendSettings "content-type" "application/grpc", .grpcl),
         (.HTTP2, .http2)] := by
      simp [declaredRules_append, h2, declaredRules]
    simp only [hn, Bool.false_eq_true, if_false, hr, cmuxServe_rules]
    refine ⟨trivial, ?_, ?_, ?_, ?_, ?_, ?_, ?_, ?_, ?_⟩
    · simp [serversOn, startedGoroutines_append, h3, startedGoroutines, goroutine.serves]
    · simp [serversOn, startedGoroutines_append, h3, startedGoroutines, goroutine.serves]
    · simp [serversOn, startedGoroutines_append, h3, startedGoroutines, goroutine.serves]
    · simp [serversOn, startedGoroutines_append, h3, startedGoroutines, goroutine.serves]
    · rintro ⟨method, hm, hp⟩
      have : cmuxMatcher.HTTP1Fast.accepts c = true := by
        simp only [cmuxMatcher.accepts, defaultHTTPMethods, List.any_eq_true]
        exact ⟨method, hm, hp⟩
      simp [this]
    · intro hp
      simp [preface_not_http1 c hp, hp]
    · intro hp skipped fields endHeaders rest hskip hframes hmem
      have hm := matchHTTP2Field_of_mem "content-type" "application/grpc" fields endHeaders rest
        hmem skipped hskip
      rw [← hframes] at hm
      simp [preface_not_http1 c hp, hp, hm]
    · intro hno hp
      have : cmuxMatcher.HTTP1Fast.accepts c = false := by
        rw [Bool.eq_false_iff]
        intro hacc
        simp only [cmuxMatcher.accepts, defaultHTTPMethods, List.any_eq_true] at hacc
        obtain ⟨method, hm, hpre⟩ := hacc
        rw [hno method hm] at hpre
        exact Bool.noConfusion hpre
      simp [this, hp]
    · split_ifs <;> simp
  · intro hn
    simp [hn, declaredRules_append, h2, declaredRules, serversOn, startedGoroutines_append, h3,
      startedGoroutines, goroutine.serves]

/-- Witness of `Start_wiring` on the sample module: `Start` succeeds; a gRPC
connection, whose gRPC content type comes second in its header frame, reaches
the gRPC listener only; and, on the same rules, a plug-in request over HTTP/1
reaches the HTTP/1 listener, an HTTP/2 connection without the gRPC content
type the generic HTTP/2 listener, and an HTTP/1 request with the method PATCH
no listener. -/
theorem Start_wiring_witness :
    (sampleMod.Start sampleParse sampleListen).2.2 = none ∧
    cmuxServe (declaredRules (sampleMod.Start sampleParse sampleListen).2.1) sampleGrpcConn =
      [.grpcl] ∧
    cmuxServe (declaredRules (sampleMod.Start sampleParse sampleListen).2.1) sampleHttp1Conn =
      [.httpl] ∧
    cmuxServe (declaredRules (sampleMod.Start sampleParse sampleListen).2.1) sampleHttp2Conn =
      [.http2] ∧
    cmuxServe (declaredRules (sampleMod.Start sampleParse sampleListen).2.1) samplePatchConn =
      [] :=
  ⟨by decide,
    (((Start_wiring sampleParse sampleListen sampleMod sampleGrpcConn (by decide)).1
      (by decide)).2.2.2.2.2.2.1 (by decide)).trans (by decide),
    by decide, by decide, by decide⟩

/-! ## Properties of the warmup loop -/

theorem warmRun_finished (probe : Nat → Bool) (fired : Nat → Bool) (fuel t calls : Nat) :
    warmRun probe fired fuel t { pc := .finished, calls := calls } = [] := by
  cases fuel <;> simp [warmRun, warmStep]

theorem warmRun_returned (probe : Nat → Bool) (fired : Nat → Bool) (fuel t calls : Nat) :
    warmRun probe fired fuel t { pc := .returned, calls := calls } = [] := by
  cases fuel <;> simp [warmRun, warmStep]

theorem warmRun_done (probe : Nat → Bool) (fired : Nat → Bool) (fuel t calls : Nat) :
    warmRun probe fired (fuel + 1) t { pc := .done, calls := calls } = [(t, .wgDone)] := by
  simp [warmRun, warmStep, warmRun_finished]

theorem warmRun_list_ok (probe : Nat → Bool) (fired : Nat → Bool) (fuel t calls : Nat)
    (h : probe calls = true) :
    warmRun probe fired (fuel + 1) t { pc := .list, calls := calls } =
      (t, .list true) :: warmRun probe fired fuel (t + 1) { pc := .done, calls := calls + 1 } := by
  simp [warmRun, warmStep, h]

theorem warmRun_list_fail (probe : Nat → Bool) (fired : Nat → Bool) (fuel t calls : Nat)
    (h : probe calls = false) :
    warmRun probe fired (fuel + 1) t { pc := .list, calls := calls } =
      (t, .list false) ::
        warmRun probe fired fuel (t + 1) { pc := .select, calls := calls + 1 } := by
  simp [warmRun, warmStep, h]

theorem warmRun_select_fired (probe : Nat → Bool) (fired : Nat → Bool) (fuel t calls : Nat)
    (h : fired t = true) :
    warmRun probe fired (fuel + 1) t { pc := .select, calls := calls } = [(t, .ctxDone)] := by
  simp [warmRun, warmStep, h, warmRun_returned]

theorem warmRun_select_timer (probe : Nat → Bool) (fired : Nat → Bool) (fuel t calls : Nat)
    (h : fired t = false) :
    warmRun probe fired (fuel + 1) t { pc := .select, calls := calls } =
      (t, .timeAfter1s) :: warmRun probe fired fuel (t + 1) { pc := .list, calls := calls } := by
  simp [warmRun, warmStep, h]

theorem warmRun_failThenSucceed (probe : Nat → Bool) (n : Nat) :
    ∀ (k t fuel : Nat), (∀ i, i < n → probe (k + i) = false) → probe (k + n) = true →
      2 * n + 2 ≤ fuel →
      warmRun probe (fun _ => false) fuel t { pc := .list, calls := k } =
        failThenSucceedTrace n t := by
  induction n with
  | zero =>
    intro k t fuel _ hok hfuel
    obtain ⟨f, rfl⟩ : ∃ f, fuel = f + 2 := ⟨fuel - 2, by omega⟩
    rw [warmRun_list_ok _ _ _ _ _ (by simpa using hok), warmRun_done]
    rfl
  | succ n ih =>
    intro k t fuel hfail hok hfuel
    obtain ⟨f, rfl⟩ : ∃ f, fuel = f + 2 := ⟨fuel - 2, by omega⟩
    rw [warmRun_list_fail _ _ _ _ _ (by simpa using hfail 0 (by omega)),
      warmRun_select_timer _ _ _ _ _ rfl]
    rw [ih (k + 1) (t + 1 + 1) f
      (fun i hi => by have := hfail (i + 1) (by omega); rwa [show k + 1 + i = k + (i + 1) by omega])
      (by rwa [show k + 1 + n = k + (n + 1) by omega]) (by omega)]
    rfl

theorem listCalls_failThenSucceedTrace (n t : Nat) :
    (listCalls (failThenSucceedTrace n t)).length = n + 1 := by
  induction n generalizing t with
  | zero => simp [failThenSucceedTrace, listCalls, List.filter]
  | succ n ih =>
    have := ih (t + 2)
    simp only [listCalls] at this
    simp [failThenSucceedTrace, listCalls, List.filter, this]

/-- C6: when the probe fails on its first `n` calls and succeeds on call
`n + 1` and the cancellation signal does not fire, the warmup loop, given
enough steps, makes exactly `n + 1` calls of the probe, with the one-second
wait after each failed call, then calls `Done()` and ends: the run is the same
whatever further number of steps it is allowed. -/
theorem warmup_fail_then_succeed (probe : Nat → Bool) (n fuel : Nat)
    (hfail : ∀ i, i < n → probe i = false) (hok : probe n = true) (hfuel : 2 * n + 2 ≤ fuel) :
    warmRun probe (fun _ => false) fuel 0 warmState.init = failThenSucceedTrace n 0 ∧
    (listCalls (warmRun probe (fun _ => false) fuel 0 warmState.init)).length = n + 1 := by
  have h := warmRun_failThenSucceed probe n 0 0 fuel (by simpa using hfail) (by simpa using hok)
    hfuel
  have h' : warmRun probe (fun _ => false) fuel 0 warmState.init = failThenSucceedTrace n 0 := h
  exact ⟨h', by rw [h', listCalls_failThenSucceedTrace]⟩

/-- Witness of `warmup_fail_then_succeed` for a probe that fails twice and then
succeeds: three calls. -/
theorem warmup_fail_then_succeed_witness :
    warmRun (fun k => decide (2 ≤ k)) (fun _ => false) 10 0 warmState.init =
      [(0, .list false), (1, .timeAfter1s), (2, .list false), (3, .timeAfter1s),
       (4, .list true), (5, .wgDone)] ∧
    (listCalls (warmRun (fun k => decide (2 ≤ k)) (fun _ => false) 10 0 warmState.init)).length =
      2 + 1 :=
  warmup_fail_then_succeed (fun k => decide (2 ≤ k)) 2 10
    (fun i hi => by simp; omega) (by decide) (by decide)

theorem listCalls_cons (te : Nat × event) (tr : List (Nat × event)) :
    listCalls (te :: tr) =
      if te.2 = .list true ∨ te.2 = .list false then te :: listCalls tr else listCalls tr := by
  by_cases h1 : te.2 = .list true
  · simp [listCalls, List.filter, h1]
  · by_cases h2 : te.2 = .list false
    · simp [listCalls, List.filter, h2]
    · simp [listCalls, List.filter, h1, h2]

/-- Once the signal has fired, what is left of the run of the warmup loop has at
most two steps and at most one probe call. -/
theorem warmRun_after_fired (probe : Nat → Bool) (fired : Nat → Bool) (fuel t : Nat)
    (s : warmState) (h0 : fired t = true) (h1 : fired (t + 1) = true) :
    (listCalls (warmRun probe fired fuel t s)).length ≤ 1 ∧
    ∀ te ∈ warmRun probe fired fuel t s, te.1 ≤ t + 1 := by
  obtain ⟨pc, calls⟩ := s
  cases fuel with
  | zero => simp [warmRun, listCalls]
  | succ fuel =>
    cases pc with
    | list =>
      cases hp : probe calls with
      | true =>
        rw [warmRun_list_ok _ _ _ _ _ hp]
        cases fuel with
        | zero => simp [warmRun, listCalls_cons, listCalls]
        | succ fuel => simp [warmRun_done, listCalls_cons, listCalls]
      | false =>
        rw [warmRun_list_fail _ _ _ _ _ hp]
        cases fuel with
        | zero => simp [warmRun, listCalls_cons, listCalls]
        | succ fuel => simp [warmRun_select_fired _ _ _ _ _ h1, listCalls_cons, listCalls]
    | select => simp [warmRun_select_fired _ _ _ _ _ h0, listCalls_cons, listCalls]
    | done => simp [warmRun_done, listCalls_cons, listCalls]
    | finished => simp [warmRun_finished, listCalls]
    | returned => simp [warmRun_returned, listCalls]

theorem warmRun_fired_at (probe : Nat → Bool) (c : Nat) :
    ∀ (fuel t : Nat) (s : warmState), t ≤ c →
      ((listCalls (warmRun probe (fun u => decide (c ≤ u)) fuel t s)).filter
          (fun te => decide (c ≤ te.1))).length ≤ 1 ∧
      ∀ te ∈ warmRun probe (fun u => decide (c ≤ u)) fuel t s, te.1 ≤ c + 1 := by
  intro fuel
  induction fuel with
  | zero => intro t s _; simp [warmRun, listCalls]
  | succ fuel ih =>
    intro t s ht
    rcases Nat.lt_or_ge t c with hlt | hge
    · -- the signal has not fired yet: the step is not counted
      have hf : (fun u => decide (c ≤ u)) t = false := by simp; omega
      simp only [warmRun]
      rcases hstep : warmStep probe ((fun u => decide (c ≤ u)) t) s with ⟨s', oe, d⟩
      cases oe with
      | none => simp [listCalls]
      | some e =>
        have := ih (t + 1) s' (by omega)
        simp only [listCalls_cons]
        refine ⟨?_, ?_⟩
        · split
          · rw [List.filter_cons_of_neg (by simp; omega)]
            exact this.1
          · exact this.1
        · intro te hte
          rcases List.mem_cons.1 hte with rfl | hte
          · simp; omega
          · exact this.2 te hte
    · have htc : t = c := by omega
      subst htc
      have := warmRun_after_fired probe (fun u => decide (t ≤ u)) (fuel + 1) t s (by simp) (by simp)
      exact ⟨le_trans (List.length_filter_le _ _) this.1, this.2⟩

/-- C7 fails as stated: when the signal has fired before the first iteration
the loop still calls the probe once, at step 0, before it looks at the
signal. -/
theorem warmup_cancel_counterexample :
    warmRun (fun _ => false) (fun _ => true) 10 0 warmState.init =
      [(0, .list false), (1, .ctxDone)] ∧
    (listCalls (warmRun (fun _ => false) (fun _ => true) 10 0 warmState.init)).length = 1 := by
  decide

/-- C7 as amended: when the signal fires at step `c` of the warmup loop (`c = 0`
when it has fired before the first iteration), at most one probe call is made
at or after that step, and the loop takes no step after step `c + 1`: it ends
at the first `select` it reaches. -/
theorem warmup_cancel (probe : Nat → Bool) (c fuel : Nat) :
    ((listCalls (warmRun probe (fun u => decide (c ≤ u)) fuel 0 warmState.init)).filter
        (fun te => decide (c ≤ te.1))).length ≤ 1 ∧
    ∀ te ∈ warmRun probe (fun u => decide (c ≤ u)) fuel 0 warmState.init, te.1 ≤ c + 1 :=
  warmRun_fired_at probe c fuel 0 warmState.init (Nat.zero_le c)

/-! ## Properties of the running module and of `Stop` -/

theorem closerOwes_nonneg (c : Option Nat) : 0 ≤ closerOwes c := by
  cases c with
  | none => simp [closerOwes]
  | some pc => simp only [closerOwes]; split_ifs <;> omega

theorem warmHolds_nonneg (s : Option warmState) : 0 ≤ warmHolds s := by
  cases s with
  | none => simp [warmHolds]
  | some s => simp only [warmHolds]; split_ifs <;> omega

theorem Consistent_stepStop {w : World} (h : w.Consistent) : w.stepStop.Consistent := by
  obtain ⟨h1, h2, h3⟩ := h
  unfold World.stepStop
  split
  · exact ⟨h1, h2, h3⟩
  · simp [h2, World.Consistent, World.log, h1, h3]
  · split
    · simp [h2, World.Consistent, World.log, h1, h3]
    · exact ⟨h1, h2, h3⟩
  · simp [h2, World.Consistent, World.log, h1, h3]
  · simp [h2, World.Consistent, World.log, h1, h3]
  · split
    · simp [h2, World.Consistent, World.log, h1, h3]
    · split <;> simp [h2, World.Consistent, World.log, h1, h3]
  · exact ⟨h1, h2, h3⟩

theorem Consistent_stepCloser {w : World} (h : w.Consistent) : w.stepCloser.Consistent := by
  obtain ⟨h1, h2, h3⟩ := h
  have hw := warmHolds_nonneg w.warm
  unfold World.stepCloser
  split
  · exact ⟨h1, h2, h3⟩
  · split
    · simp_all [World.Consistent, World.log, closerOwes]
    · exact ⟨h1, h2, h3⟩
  · simp_all [World.Consistent, World.log, closerOwes]
  · simp_all [World.Consistent, World.log, closerOwes]
  · simp_all [World.Consistent, World.log, closerOwes]
  all_goals
    first
    | exact ⟨h1, h2, h3⟩
    | (rename_i hc
       rw [hc] at h3
       simp only [closerOwes] at h3
       simp only [World.Consistent, World.wgDone, World.log, closerOwes]
       split_ifs <;> (simp_all; try omega))

theorem Consistent_stepWarm (probe : Nat → Bool) {w : World} (h : w.Consistent) :
    (w.stepWarm probe).Consistent := by
  obtain ⟨h1, h2, h3⟩ := h
  have hw := closerOwes_nonneg w.closer
  unfold World.stepWarm
  split
  · exact ⟨h1, h2, h3⟩
  · rename_i s hs
    rw [hs] at h3
    obtain ⟨pc, calls⟩ := s
    cases pc <;> simp only [warmStep]
    · split_ifs <;> simp_all [World.Consistent, World.log, warmHolds]
    · split_ifs <;> simp_all [World.Consistent, World.log, warmHolds]
    · simp only [warmHolds] at h3
      simp only [World.Consistent, World.wgDone, World.log, warmHolds]
      split_ifs <;> (simp_all; try omega)
    · simp_all [World.Consistent, World.log, warmHolds]
    · simp_all [World.Consistent, World.log, warmHolds]

theorem Consistent_step (probe : Nat → Bool) {w : World} (h : w.Consistent) (t : thread) :
    (w.step probe t).Consistent := by
  unfold World.step
  split
  · exact h
  · cases t
    · exact Consistent_stepStop h
    · exact Consistent_stepCloser h
    · exact Consistent_stepWarm probe h

theorem Consistent_run (probe : Nat → Bool) (schedule : List thread) :
    ∀ {w : World}, w.Consistent → (w.run probe schedule).Consistent := by
  induction schedule with
  | nil => intro w h; exact h
  | cons t ts ih => intro w h; exact ih (Consistent_step probe h t)

theorem Consistent_callStop {w : World} (h : w.Consistent) : w.callStop.Consistent := h

/-- A module on which `Start` has succeeded is consistent, provided its wait
group was at zero before the call, as it is in a module made by `newModule`. -/
theorem Consistent_started {parse : String → Except String (String × String)}
    {listen : String → String → Except String Listener} {m : mod}
    (hm : m.waitForCancel = 0) (h : (m.Start parse listen).2.2 = none) :
    (World.started (m.Start parse listen).1 (m.Start parse listen).2.1).Consistent := by
  obtain ⟨l, pre, h1, h2, h3, hs⟩ := Start_ok_form h
  rw [hs]
  cases hn : m.config.csiNoDocker <;>
    simp [World.Consistent, World.started, startedGoroutines_append, h3, startedGoroutines,
      closerOwes, warmHolds, warmState.init, hm]

theorem stopEvents_append (a b : List (thread × event)) :
    stopEvents (a ++ b) = stopEvents a ++ stopEvents b := by
  simp [stopEvents]

theorem stopEvents_stop (e : event) : stopEvents [(thread.stop, e)] = [e] := rfl

theorem stopEvents_closer (e : event) : stopEvents [(thread.closer, e)] = [] := rfl

theorem stopEvents_warmup (e : event) : stopEvents [(thread.warmup, e)] = [] := rfl

theorem stopProgress_lis (m m' : mod) (sp : Option stopPc) (hl : m'.lis = m.lis) :
    stopProgress m' sp = stopProgress m sp := by
  cases sp with
  | none => rfl
  | some pc => cases pc <;> simp [stopProgress, stopSequence, hl]

/-- What a step of the goroutine closing the listeners leaves untouched. -/
theorem stepCloser_frame (w : World) :
    stopEvents w.stepCloser.trace = stopEvents w.trace ∧ w.stepCloser.stop = w.stop ∧
    w.stepCloser.m.lis = w.m.lis ∧ w.stepCloser.warm = w.warm ∧
    ((thread.warmup, event.wgDone) ∈ w.stepCloser.trace ↔ (thread.warmup, event.wgDone) ∈ w.trace) ∧
    ((thread.stop, event.waitReturned) ∈ w.stepCloser.trace ↔
      (thread.stop, event.waitReturned) ∈ w.trace) := by
  unfold World.stepCloser
  split
  · simp
  · split <;> simp [World.log, stopEvents_append, stopEvents_closer]
  all_goals
    first
    | simp [World.log, stopEvents_append, stopEvents_closer]; done
    | (simp only [World.wgDone, World.log]
       split_ifs <;> simp [stopEvents_append, stopEvents_closer])

/-- What a step of the warmup loop leaves untouched. -/
theorem stepWarm_frame (probe : Nat → Bool) (w : World) :
    stopEvents (w.stepWarm probe).trace = stopEvents w.trace ∧ (w.stepWarm probe).stop = w.stop ∧
    (w.stepWarm probe).m.lis = w.m.lis ∧ (w.stepWarm probe).closer = w.closer ∧
    ((thread.stop, event.waitReturned) ∈ (w.stepWarm probe).trace ↔
      (thread.stop, event.waitReturned) ∈ w.trace) := by
  unfold World.stepWarm
  split
  · simp
  · split
    · simp only [World.wgDone, World.log]
      split_ifs <;> simp [stopEvents_append, stopEvents_warmup]
    · simp [World.log, stopEvents_append, stopEvents_warmup]
    · simp

/-- The actions of the callers of `Stop` are, at every moment, those recorded
before the call in progress followed by the actions that lead to the position
the call stands at. -/
theorem stopTrace_step (probe : Nat → Bool) (base : List event) {w : World}
    (h : stopEvents w.trace = base ++ stopProgress w.m w.stop) (t : thread) :
    stopEvents (w.step probe t).trace =
      base ++ stopProgress (w.step probe t).m (w.step probe t).stop := by
  unfold World.step
  split
  · exact h
  · cases t
    · show stopEvents w.stepStop.trace = base ++ stopProgress w.stepStop.m w.stepStop.stop
      unfold World.stepStop
      split
      · exact h
      · rename_i hs
        rw [hs] at h
        split
        · simp [World.log, stopEvents_append, stopEvents_stop, h, stopProgress]
        · simpa [hs] using h
      · rename_i hs
        rw [hs] at h
        split
        · simp [World.log, stopEvents_append, stopEvents_stop, h, stopProgress]
        · simpa [hs] using h
      · rename_i hs
        rw [hs] at h
        simp [World.log, stopEvents_append, stopEvents_stop, h, stopProgress]
      · rename_i hs
        rw [hs] at h
        simp [World.log, stopEvents_append, stopEvents_stop, h, stopProgress]
      · rename_i hs
        rw [hs] at h
        split
        · rename_i hl
          simp [h, stopProgress, stopSequence, hl]
        · rename_i lis hl
          split
          · rename_i hu
            simp [World.log, stopEvents_append, stopEvents_stop, h, stopProgress, stopSequence,
              hl, hu]
          · rename_i hu
            simp [h, stopProgress, stopSequence, hl, hu]
      · exact h
    · show stopEvents w.stepCloser.trace = base ++ stopProgress w.stepCloser.m w.stepCloser.stop
      obtain ⟨f1, f2, f3, _⟩ := stepCloser_frame w
      rw [f1, f2, stopProgress_lis w.m _ _ f3]
      exact h
    · show stopEvents (w.stepWarm probe).trace =
        base ++ stopProgress (w.stepWarm probe).m (w.stepWarm probe).stop
      obtain ⟨f1, f2, f3, _⟩ := stepWarm_frame probe w
      rw [f1, f2, stopProgress_lis w.m _ _ f3]
      exact h

theorem stopTrace_run (probe : Nat → Bool) (base : List event) (schedule : List thread) :
    ∀ {w : World}, stopEvents w.trace = base ++ stopProgress w.m w.stop →
      stopEvents (w.run probe schedule).trace =
        base ++ stopProgress (w.run probe schedule).m (w.run probe schedule).stop := by
  induction schedule with
  | nil => intro w h; exact h
  | cons t ts ih => intro w h; exact ih (stopTrace_step probe base h t)

theorem Stuck_stepStop {w : World} (h : w.Stuck) : w.stepStop.Stuck := by
  obtain ⟨hc, ⟨s, hs, hp1, hp2⟩, hpw, ht1, ht2⟩ := h
  refine ⟨Consistent_stepStop hc, ?_⟩
  have hwg : w.m.waitForCancel ≠ 0 := by
    have h3 := hc.2.2
    have := closerOwes_nonneg w.closer
    rw [hs] at h3
    simp only [warmHolds, hp2, if_false] at h3
    omega
  unfold World.stepStop
  split
  · exact ⟨⟨s, hs, hp1, hp2⟩, hpw, ht1, ht2⟩
  · split
    · exact ⟨⟨s, by simpa [World.log] using hs, hp1, hp2⟩, rfl,
        by simpa [World.log] using ht1, by simpa [World.log] using ht2⟩
    · exact ⟨⟨s, hs, hp1, hp2⟩, hpw, ht1, ht2⟩
  · rw [if_neg hwg]
    exact ⟨⟨s, hs, hp1, hp2⟩, hpw, ht1, ht2⟩
  all_goals
    rename_i hst
    rw [hst] at hpw
    simp [pastWait] at hpw

theorem Stuck_stepCloser {w : World} (h : w.Stuck) : w.stepCloser.Stuck := by
  obtain ⟨hc, ⟨s, hs, hp1, hp2⟩, hpw, ht1, ht2⟩ := h
  obtain ⟨_, f2, _, f4, f5, f6⟩ := stepCloser_frame w
  exact ⟨Consistent_stepCloser hc, ⟨s, by rw [f4]; exact hs, hp1, hp2⟩, by rw [f2]; exact hpw,
    by rw [f5]; exact ht1, by rw [f6]; exact ht2⟩

theorem Stuck_stepWarm {w : World} (h : w.Stuck) : (w.stepWarm probeNever).Stuck := by
  obtain ⟨hc, ⟨s, hs, hp1, hp2⟩, hpw, ht1, ht2⟩ := h
  obtain ⟨_, f2, _, _, f5⟩ := stepWarm_frame probeNever w
  refine ⟨Consistent_stepWarm probeNever hc, ?_, by rw [f2]; exact hpw, ?_, by rw [f5]; exact ht2⟩
  · unfold World.stepWarm
    rw [hs]
    obtain ⟨pc, calls⟩ := s
    cases pc
    · simp [warmStep, probeNever, World.log, World.Probing]
    · by_cases hd : w.m.ctxDone = true <;> simp [warmStep, hd, World.log, World.Probing]
    · exact absurd rfl hp1
    · exact absurd rfl hp2
    · simp [warmStep, World.Probing, hs]
  · unfold World.stepWarm
    rw [hs]
    obtain ⟨pc, calls⟩ := s
    cases pc
    · simpa [warmStep, probeNever, World.log] using ht1
    · by_cases hd : w.m.ctxDone = true <;> simpa [warmStep, hd, World.log] using ht1
    · exact absurd rfl hp1
    · exact absurd rfl hp2
    · simpa [warmStep] using ht1

theorem Stuck_run (schedule : List thread) :
    ∀ {w : World}, w.Stuck → (w.run probeNever schedule).Stuck := by
  induction schedule with
  | nil => intro w h; exact h
  | cons t ts ih =>
    intro w h
    refine ih ?_
    unfold World.step
    split
    · exact h
    · cases t
      · exact Stuck_stepStop h
      · exact Stuck_stepCloser h
      · exact Stuck_stepWarm h

theorem Stuck_callStop {w : World} (h : w.Stuck) : w.callStop.Stuck :=
  ⟨h.1, h.2.1, rfl, h.2.2.2.1, h.2.2.2.2⟩

theorem Stuck_sampleStarted : sampleStarted.Stuck :=
  ⟨Consistent_started rfl (by decide),
    ⟨warmState.init, by decide, by decide, by decide⟩, rfl, by decide, by decide⟩

theorem Stuck_counter_pos {w : World} (h : w.Stuck) : 1 ≤ w.m.waitForCancel := by
  obtain ⟨hc, ⟨s, hs, _, hp2⟩, _⟩ := h
  have h3 := hc.2.2
  have := closerOwes_nonneg w.closer
  rw [hs] at h3
  simp only [warmHolds, hp2, if_false] at h3
  omega

/-- What a step of a call of `Stop` leaves untouched. -/
theorem stepStop_frame (w : World) :
    w.stepStop.m.lis = w.m.lis ∧ w.stepStop.m.waitForCancel = w.m.waitForCancel ∧
    w.stepStop.closer = w.closer ∧ w.stepStop.warm = w.warm := by
  unfold World.stepStop
  split
  · simp
  · split <;> simp [World.log]
  · split <;> simp [World.log]
  · simp [World.log]
  · simp [World.log]
  · split
    · simp
    · split <;> simp [World.log]
  · simp

theorem step_lis (probe : Nat → Bool) (w : World) (t : thread) :
    (w.step probe t).m.lis = w.m.lis := by
  unfold World.step
  split
  · rfl
  · cases t
    · exact (stepStop_frame w).1
    · exact (stepCloser_frame w).2.2.1
    · exact (stepWarm_frame probe w).2.2.1

theorem run_lis (probe : Nat → Bool) (schedule : List thread) :
    ∀ (w : World), (w.run probe schedule).m.lis = w.m.lis := by
  induction schedule with
  | nil => intro w; rfl
  | cons t ts ih => intro w; exact (ih _).trans (step_lis probe w t)

theorem step_stop_none (probe : Nat → Bool) {w : World} (h : w.stop = none) (t : thread) :
    (w.step probe t).stop = none := by
  unfold World.step
  split
  · exact h
  · cases t
    · show w.stepStop.stop = none
      unfold World.stepStop
      rw [h]
      exact h
    · exact (stepCloser_frame w).2.1.trans h
    · exact (stepWarm_frame probe w).2.1.trans h

theorem run_stop_none (probe : Nat → Bool) (schedule : List thread) :
    ∀ {w : World}, w.stop = none → (w.run probe schedule).stop = none := by
  induction schedule with
  | nil => intro w h; exact h
  | cons t ts ih => intro w h; exact ih (step_stop_none probe h t)

theorem Quiet_stepCloser {w : World} (h : w.Quiet) : w.stepCloser = w := by
  obtain ⟨⟨_, _, h3⟩, h0⟩ := h
  have hw := warmHolds_nonneg w.warm
  have hc : closerOwes w.closer = 0 := by
    have := closerOwes_nonneg w.closer
    omega
  unfold World.stepCloser
  split
  · rfl
  all_goals
    first
    | rfl
    | (rename_i hpc
       rw [hpc] at hc
       simp [closerOwes] at hc)

theorem Quiet_stepWarm (probe : Nat → Bool) {w : World} (h : w.Quiet) : w.stepWarm probe = w := by
  obtain ⟨⟨_, _, h3⟩, h0⟩ := h
  have hw := closerOwes_nonneg w.closer
  have hc : warmHolds w.warm = 0 := by
    have := warmHolds_nonneg w.warm
    omega
  unfold World.stepWarm
  split
  · rfl
  · rename_i s hs
    rw [hs] at hc
    have hpc : s.pc = .finished := by
      by_contra hne
      simp [warmHolds, hne] at hc
    obtain ⟨pc, calls⟩ := s
    simp only at hpc
    subst hpc
    simp [warmStep]

theorem Quiet_stepStop {w : World} (h : w.Quiet) : w.stepStop.Quiet :=
  ⟨Consistent_stepStop h.1, (stepStop_frame w).2.1.trans h.2⟩

theorem Settled_step (probe : Nat → Bool) {w : World} (h : w.Settled) (t : thread) :
    (w.step probe t).Settled := by
  refine ⟨Consistent_step probe h.1 t, ?_⟩
  unfold World.step
  split
  · exact h.2
  · cases t
    · show pastWait w.stepStop.stop = true → w.stepStop.m.waitForCancel = 0
      rw [(stepStop_frame w).2.1]
      unfold World.stepStop
      split
      · exact h.2
      · rename_i hs
        split
        · simp [World.log, pastWait]
        · intro hp
          simp [hs, pastWait] at hp
      · split
        · intro _; assumption
        · exact h.2
      all_goals
        rename_i hs
        intro _
        exact h.2 (by rw [hs]; rfl)
    · show pastWait w.stepCloser.stop = true → w.stepCloser.m.waitForCancel = 0
      intro hp
      rw [(stepCloser_frame w).2.1] at hp
      rw [Quiet_stepCloser ⟨h.1, h.2 hp⟩]
      exact h.2 hp
    · show pastWait (w.stepWarm probe).stop = true → (w.stepWarm probe).m.waitForCancel = 0
      intro hp
      rw [(stepWarm_frame probe w).2.1] at hp
      rw [Quiet_stepWarm probe ⟨h.1, h.2 hp⟩]
      exact h.2 hp

theorem Settled_run (probe : Nat → Bool) (schedule : List thread) :
    ∀ {w : World}, w.Settled → (w.run probe schedule).Settled := by
  induction schedule with
  | nil => intro w h; exact h
  | cons t ts ih => intro w h; exact ih (Settled_step probe h t)

theorem stopEvents_map_stop (es : List event) :
    stopEvents (es.map (fun e => (thread.stop, e))) = es := by
  induction es with
  | nil => rfl
  | cons e es ih =>
    have : stopEvents ((thread.stop, e) :: es.map (fun e => (thread.stop, e))) =
        e :: stopEvents (es.map (fun e => (thread.stop, e))) := rfl
    rw [List.map_cons, this, ih]

theorem stepStop_afterStop (w : World) : w.afterStop.stepStop = w.afterStop := rfl

theorem iterate_stepStop_afterStop (w : World) (k : Nat) :
    Nat.iterate World.stepStop k w.afterStop = w.afterStop := by
  induction k with
  | zero => rfl
  | succ k ih => rw [Function.iterate_succ_apply, stepStop_afterStop, ih]

/-- On a module whose wait group is at zero, a call of `Stop` goes through all
its actions in five steps, without waiting. -/
theorem Quiet_stepStop_five {w : World} (h : w.Quiet) (hs : w.stop = some .cancel) :
    Nat.iterate World.stepStop 5 w = w.afterStop := by
  obtain ⟨⟨h1, h2, h3⟩, h0⟩ := h
  obtain ⟨m, closer, warm, stop, panicked, trace⟩ := w
  simp only at h1 h2 h0 hs
  subst hs
  simp only [Function.iterate_succ_apply, Function.iterate_zero_apply]
  rcases hl : m.lis with _ | lis
  · simp [World.stepStop, World.log, h2, h0, hl, World.afterStop, stopSequence]
  · by_cases hu : lis.network = protoUnix
    · simp [World.stepStop, World.log, h2, h0, hl, hu, World.afterStop, stopSequence]
    · simp [World.stepStop, World.log, h2, h0, hl, hu, World.afterStop, stopSequence]

theorem Quiet_iterate_stepStop {w : World} (h : w.Quiet) (hs : w.stop = some .cancel) (n : Nat)
    (hn : 5 ≤ n) : Nat.iterate World.stepStop n w = w.afterStop := by
  obtain ⟨k, rfl⟩ : ∃ k, n = k + 5 := ⟨n - 5, by omega⟩
  rw [Function.iterate_add_apply, Quiet_stepStop_five h hs, iterate_stepStop_afterStop]

theorem Quiet_iterate (k : Nat) : ∀ {w : World}, w.Quiet → (Nat.iterate World.stepStop k w).Quiet := by
  induction k with
  | zero => intro w h; exact h
  | succ k ih => intro w h; rw [Function.iterate_succ_apply]; exact ih (Quiet_stepStop h)

/-- On a module whose wait group is at zero only the caller of `Stop` moves. -/
theorem Quiet_run (probe : Nat → Bool) (schedule : List thread) :
    ∀ {w : World}, w.Quiet →
      w.run probe schedule = Nat.iterate World.stepStop (schedule.count .stop) w := by
  induction schedule with
  | nil => intro w _; rfl
  | cons t ts ih =>
    intro w h
    have hp : w.panicked = false := h.1.1
    show World.run probe (w.step probe t) ts = _
    cases t
    · have : w.step probe .stop = w.stepStop := by simp [World.step, hp]
      rw [this, ih (Quiet_stepStop h), List.count_cons_self, Function.iterate_succ_apply]
    · have : w.step probe .closer = w := by simp [World.step, hp, Quiet_stepCloser h]
      rw [this, ih h, List.count_cons_of_ne (by decide)]
    · have : w.step probe .warmup = w := by simp [World.step, hp, Quiet_stepWarm probe h]
      rw [this, ih h, List.count_cons_of_ne (by decide)]

theorem Stuck_firstStop (before during : List thread) :
    (sampleStarted.firstStop probeNever before during).Stuck :=
  Stuck_run during (Stuck_callStop (Stuck_run before Stuck_sampleStarted))

/-- The actions of a first call of `Stop` on a started module are, at every
moment and under every schedule, the actions that lead to the position the
call stands at; when the call has returned they are the whole sequence of
`stopSequence`, in that order. -/
theorem Stop_actions_in_order (probe : Nat → Bool) (m : mod) (es : List effect)
    (before during : List thread) :
    stopEvents ((World.started m es).firstStop probe before during).trace =
      stopProgress m ((World.started m es).firstStop probe before during).stop := by
  have h0 : (World.started m es).stop = none := rfl
  have hb := run_stop_none probe before h0
  have h1 := stopTrace_run probe [] before
    (w := World.started m es) (by simp [World.started, stopEvents, stopProgress])
  rw [hb] at h1
  have h2 := stopTrace_run probe [] during
    (w := ((World.started m es).run probe before).callStop)
    (by simpa [World.callStop, stopProgress] using h1)
  have hl : ((World.started m es).firstStop probe before during).m.lis = m.lis := by
    unfold World.firstStop
    rw [run_lis]
    show ((World.started m es).run probe before).m.lis = m.lis
    rw [run_lis]
    rfl
  rw [← stopProgress_lis m _ _ hl]
  simpa [World.firstStop] using h2

/-- The other way out of the warmup loop: on the sample module, with a probe
that fails once and then succeeds, the loop calls `Done()`, and a call of
`Stop` made after that returns with the counter at zero. -/
theorem Stop_returns_after_probe_success :
    (sampleStarted.firstStop (fun k => decide (1 ≤ k)) (List.replicate 4 .warmup)
      (roundRobin 12)).stop = some .returned ∧
    (sampleStarted.firstStop (fun k => decide (1 ≤ k)) (List.replicate 4 .warmup)
      (roundRobin 12)).m.waitForCancel = 0 ∧
    (thread.warmup, event.wgDone) ∈
      (sampleStarted.firstStop (fun k => decide (1 ≤ k)) (List.replicate 4 .warmup)
        (roundRobin 12)).trace := by
  decide

/-- C1 fails on the code: on the sample module started with multiplexing, with
a probe that never succeeds, whenever `Stop` is called and however the threads
are scheduled, the warmup loop never calls `Done()`, the counter stays at one
or more and the wait of `Stop` never returns; under the round-robin schedule
the loop has ended through its `return`, the other goroutine has ended, and
the counter stands at one with `Stop` still in the wait. -/
theorem Stop_wait_never_returns (before during : List thread) :
    1 ≤ (sampleStarted.firstStop probeNever before during).m.waitForCancel ∧
    (thread.warmup, event.wgDone) ∉ (sampleStarted.firstStop probeNever before during).trace ∧
    (thread.stop, event.waitReturned) ∉
      (sampleStarted.firstStop probeNever before during).trace ∧
    (sampleStarted.firstStop probeNever [] (roundRobin 12)).warm =
      some { pc := .returned, calls := 1 } ∧
    (sampleStarted.firstStop probeNever [] (roundRobin 12)).closer = some 7 ∧
    (sampleStarted.firstStop probeNever [] (roundRobin 12)).m.waitForCancel = 1 ∧
    (sampleStarted.firstStop probeNever [] (roundRobin 12)).stop = some .wait := by
  have h := Stuck_firstStop before during
  exact ⟨Stuck_counter_pos h, h.2.2.2.1, h.2.2.2.2, by decide, by decide, by decide, by decide⟩

/-- C2 fails on the code: on the sample module started with multiplexing, with
a probe that never succeeds, whenever `Stop` is called and however the threads
are scheduled, the call never gets past the wait: the only action it ever
takes is the cancellation, it stops neither server, deletes nothing and does
not return. -/
theorem Stop_never_past_wait (before during : List thread) :
    (stopEvents (sampleStarted.firstStop probeNever before during).trace = [] ∨
      stopEvents (sampleStarted.firstStop probeNever before during).trace = [.cancel]) ∧
    (sampleStarted.firstStop probeNever before during).stop ≠ some .returned ∧
    stopSequence sampleStarted.m =
      [.cancel, .waitReturned, .gsGracefulStop, .csGracefulStop,
       .removeAll "/run/docker/plugins/rexray.sock"] := by
  have h := Stuck_firstStop before during
  have ho : stopEvents (sampleStarted.firstStop probeNever before during).trace =
      stopProgress sampleStarted.m (sampleStarted.firstStop probeNever before during).stop :=
    Stop_actions_in_order probeNever sampleStarted.m
      (sampleMod.Start sampleParse sampleListen).2.1 before during
  have hp := h.2.2.1
  refine ⟨?_, ?_, by decide⟩
  · rw [ho]
    rcases hst : (sampleStarted.firstStop probeNever before during).stop with _ | pc
    · left; rfl
    · rw [hst] at hp
      cases pc <;> simp [pastWait] at hp
      · left; rfl
      · right; rfl
  · intro hst
    rw [hst] at hp
    simp [pastWait] at hp

/-- C8 fails as stated: on the sample module started without multiplexing on
a unix socket, a first call of `Stop` returns and a second call returns too,
and the two calls have issued the deletion of the socket file twice. -/
theorem Stop_twice_counterexample :
    (sampleStartedNoDocker.firstStop probeNever [] (List.replicate 5 .stop)).stop =
      some .returned ∧
    (sampleStartedNoDocker.secondStop probeNever [] (List.replicate 5 .stop)
      (List.replicate 5 .stop)).stop = some .returned ∧
    stopEvents (sampleStartedNoDocker.secondStop probeNever [] (List.replicate 5 .stop)
      (List.replicate 5 .stop)).trace =
      [.cancel, .waitReturned, .gsGracefulStop, .csGracefulStop,
       .removeAll "/run/docker/plugins/rexray.sock",
       .cancel, .waitReturned, .gsGracefulStop, .csGracefulStop,
       .removeAll "/run/docker/plugins/rexray.sock"] := by
  decide

/-- C8 as amended: on a module on which `Start` succeeded and a first call of
`Stop` has returned, a second call of `Stop` never panics and never finds the
counter of the wait group other than zero, so that it does not wait; once it
has taken its five steps it has returned, and it has repeated the actions of
the first call: the cancellation, the wait, the two graceful stops and, when
the listener's network is "unix", a second deletion of the socket file. -/
theorem Stop_twice (parse : String → Except String (String × String))
    (listen : String → String → Except String Listener) (m : mod) (probe : Nat → Bool)
    (before during after : List thread)
    (hm : m.waitForCancel = 0) (hstart : (m.Start parse listen).2.2 = none)
    (hret : ((World.started (m.Start parse listen).1 (m.Start parse listen).2.1).firstStop probe
      before during).stop = some .returned) :
    ((World.started (m.Start parse listen).1 (m.Start parse listen).2.1).secondStop probe
      before during after).panicked = false ∧
    ((World.started (m.Start parse listen).1 (m.Start parse listen).2.1).secondStop probe
      before during after).m.waitForCancel = 0 ∧
    (5 ≤ after.count .stop →
      ((World.started (m.Start parse listen).1 (m.Start parse listen).2.1).secondStop probe
        before during after).stop = some .returned ∧
      stopEvents ((World.started (m.Start parse listen).1 (m.Start parse listen).2.1).secondStop
        probe before during after).trace =
        stopSequence (m.Start parse listen).1 ++ stopSequence (m.Start parse listen).1) := by
  have hc := Consistent_started hm hstart
  -- the first call
  have hs1 : ((World.started (m.Start parse listen).1 (m.Start parse listen).2.1).firstStop probe
      before during).Settled :=
    Settled_run probe during (w := ((World.started (m.Start parse listen).1
      (m.Start parse listen).2.1).run probe before).callStop)
      ⟨Consistent_callStop (Consistent_run probe before hc), by simp [World.callStop, pastWait]⟩
  have hq : ((World.started (m.Start parse listen).1 (m.Start parse listen).2.1).firstStop probe
      before during).Quiet := ⟨hs1.1, hs1.2 (by rw [hret]; rfl)⟩
  have ho := Stop_actions_in_order probe (m.Start parse listen).1 (m.Start parse listen).2.1
    before during
  rw [hret] at ho
  have hl : ((World.started (m.Start parse listen).1 (m.Start parse listen).2.1).firstStop probe
      before during).m.lis = (m.Start parse listen).1.lis := by
    unfold World.firstStop
    rw [run_lis]
    show ((World.started (m.Start parse listen).1 (m.Start parse listen).2.1).run probe
      before).m.lis = _
    rw [run_lis]
    rfl
  -- the second call
  have hq2 : (((World.started (m.Start parse listen).1 (m.Start parse listen).2.1).firstStop probe
      before during).callStop).Quiet := hq
  have hrun := Quiet_run probe after hq2
  have hqa := Quiet_iterate (after.count .stop) hq2
  unfold World.secondStop
  rw [hrun]
  refine ⟨hqa.1.1, hqa.2, fun h5 => ?_⟩
  rw [Quiet_iterate_stepStop hq2 rfl _ h5]
  refine ⟨rfl, ?_⟩
  have hseq := stopProgress_lis (m.Start parse listen).1 _ (some .returned) hl
  simp only [stopProgress] at hseq ho
  simp only [World.afterStop, World.callStop, stopEvents_append, stopEvents_map_stop, ho, hseq]

/-- Witness of `Stop_twice` on the sample module started without multiplexing:
the first call returns in five steps and so does the second. -/
theorem Stop_twice_witness :
    (sampleStartedNoDocker.secondStop probeNever [] (List.replicate 5 .stop)
      (List.replicate 5 .stop)).panicked = false ∧
    (sampleStartedNoDocker.secondStop probeNever [] (List.replicate 5 .stop)
      (List.replicate 5 .stop)).m.waitForCancel = 0 ∧
    (5 ≤ (List.replicate 5 thread.stop).count .stop →
      (sampleStartedNoDocker.secondStop probeNever [] (List.replicate 5 .stop)
        (List.replicate 5 .stop)).stop = some .returned ∧
      stopEvents (sampleStartedNoDocker.secondStop probeNever [] (List.replicate 5 .stop)
        (List.replicate 5 .stop)).trace =
        stopSequence (sampleModNoDocker.Start sampleParse sampleListen).1 ++
          stopSequence (sampleModNoDocker.Start sampleParse sampleListen).1) :=
  Stop_twice sampleParse sampleListen sampleModNoDocker probeNever [] (List.replicate 5 .stop)
    (List.replicate 5 .stop) rfl (by decide) (by decide)

/-! ## Properties of the log adapter -/

theorem splitOn_eq_linesFrom (bytes : List Nat) :
    ∀ (pending : List Nat), 10 ∉ pending →
      (pending ++ bytes).splitOn 10 = linesFrom pending bytes ++ [restFrom pending bytes] := by
  induction bytes with
  | nil =>
    intro pending hp
    simp only [List.append_nil, linesFrom, restFrom, List.nil_append]
    exact List.splitOnP_eq_single _ _ (fun x hx hx10 => hp (by rw [beq_iff_eq] at hx10; exact hx10 ▸ hx))
  | cons b bs ih =>
    intro pending hp
    by_cases hb : b = 10
    · subst hb
      simp only [linesFrom, restFrom, if_true, List.cons_append]
      have := ih [] (by simp)
      simp only [List.nil_append] at this
      rw [← this]
      exact List.splitOnP_first _ _ (fun x hx hx10 => hp (by rw [beq_iff_eq] at hx10; exact hx10 ▸ hx)) 10 (by simp) bs
    · simp only [linesFrom, restFrom, hb, if_false]
      have := ih (pending ++ [b]) (by simp [hp, Ne.symm hb])
      simpa using this

theorem restFrom_no_newline (bytes : List Nat) :
    ∀ (pending : List Nat), 10 ∉ pending → 10 ∉ restFrom pending bytes := by
  induction bytes with
  | nil => intro pending hp; exact hp
  | cons b bs ih =>
    intro pending hp
    by_cases hb : b = 10
    · simp only [restFrom, hb, if_true]
      exact ih [] (by simp)
    · simp only [restFrom, hb, if_false]
      exact ih (pending ++ [b]) (by simp [hp, Ne.symm hb])

theorem linesFrom_append (xs ys : List Nat) :
    ∀ (pending : List Nat),
      linesFrom pending (xs ++ ys) = linesFrom pending xs ++ linesFrom (restFrom pending xs) ys := by
  induction xs with
  | nil => intro pending; rfl
  | cons b bs ih =>
    intro pending
    by_cases hb : b = 10
    · simp [linesFrom, restFrom, hb, ih]
    · simp [linesFrom, restFrom, hb, ih]

theorem restFrom_append (xs ys : List Nat) :
    ∀ (pending : List Nat),
      restFrom pending (xs ++ ys) = restFrom (restFrom pending xs) ys := by
  induction xs with
  | nil => intro pending; rfl
  | cons b bs ih =>
    intro pending
    by_cases hb : b = 10
    · simp [restFrom, hb, ih]
    · simp [restFrom, hb, ih]

/-- Pending data is the beginning of a piece of what follows. -/
theorem pending_le_segment (bytes : List Nat) :
    ∀ (pending : List Nat),
      ∃ seg ∈ linesFrom pending bytes ++ [restFrom pending bytes], pending.length ≤ seg.length := by
  induction bytes with
  | nil => intro pending; exact ⟨pending, by simp [linesFrom, restFrom], le_refl _⟩
  | cons b bs ih =>
    intro pending
    by_cases hb : b = 10
    · exact ⟨pending, by simp [linesFrom, hb], le_refl _⟩
    · obtain ⟨seg, hseg, hle⟩ := ih (pending ++ [b])
      refine ⟨seg, by simpa [linesFrom, restFrom, hb] using hseg, ?_⟩
      simp at hle
      omega

theorem readBytes_ok (data : List Nat) :
    ∀ (pending : List Nat) (e : Nat),
      (∀ seg ∈ linesFrom pending data ++ [restFrom pending data], seg.length < MaxScanTokenSize) →
      Scanner.readBytes { pending := pending, emptyReads := e, stopped := false } data =
        ({ pending := restFrom pending data, emptyReads := if data = [] then e else 0,
           stopped := false },
          (linesFrom pending data).map dropCR, true) := by
  induction data with
  | nil => intro pending e _; simp [Scanner.readBytes, linesFrom, restFrom]
  | cons b bs ih =>
    intro pending e hlen
    by_cases hb : b = 10
    · have hrest : ∀ seg ∈ linesFrom [] bs ++ [restFrom [] bs], seg.length < MaxScanTokenSize := by
        intro seg hseg
        apply hlen
        simp only [linesFrom, restFrom, hb, if_true]
        simp only [List.mem_append, List.mem_cons] at hseg ⊢
        tauto
      simp [Scanner.readBytes, Scanner.readByte, hb, ih [] 0 hrest, linesFrom, restFrom]
    · have hrest : ∀ seg ∈ linesFrom (pending ++ [b]) bs ++ [restFrom (pending ++ [b]) bs],
          seg.length < MaxScanTokenSize := by
        intro seg hseg
        apply hlen
        simpa [linesFrom, restFrom, hb] using hseg
      obtain ⟨seg, hseg, hle⟩ := pending_le_segment bs (pending ++ [b])
      have hlt := hrest seg hseg
      simp at hle
      have hroom : ¬ MaxScanTokenSize ≤ pending.length + 1 := by omega
      simp [Scanner.readBytes, Scanner.readByte, hb, hroom, ih (pending ++ [b]) 0 hrest, linesFrom,
        restFrom]

theorem le_longestEmptyRun (chunks : List (List Nat)) :
    ∀ (cur : Nat), cur ≤ longestEmptyRun chunks cur := by
  induction chunks with
  | nil => intro cur; exact le_refl _
  | cons data chunks ih =>
    intro cur
    by_cases hd : data = []
    · simp only [longestEmptyRun, hd, if_true]
      exact le_trans (Nat.le_succ cur) (ih (cur + 1))
    · simp only [longestEmptyRun, hd, if_false]
      exact le_max_left _ _

theorem writes_ok (chunks : List (List Nat)) :
    ∀ (pending : List Nat) (e : Nat), 10 ∉ pending →
      (∀ seg ∈ linesFrom pending chunks.flatten ++ [restFrom pending chunks.flatten],
        seg.length < MaxScanTokenSize) →
      longestEmptyRun chunks e ≤ maxConsecutiveEmptyReads →
      logger.writes { scan := { pending := pending, emptyReads := e, stopped := false } } chunks =
        ((linesFrom pending chunks.flatten).map dropCR, chunks.map (fun d => some d.length)) := by
  induction chunks with
  | nil => intro pending e _ _ _; simp [logger.writes, linesFrom]
  | cons data chunks ih =>
    intro pending e hp hlen hrun
    by_cases hd : data = []
    · subst hd
      simp only [longestEmptyRun, if_true] at hrun
      have he : ¬ maxConsecutiveEmptyReads < e + 1 := by
        have := le_longestEmptyRun chunks (e + 1)
        omega
      have := ih pending (e + 1) hp (by simpa using hlen) hrun
      simp [logger.writes, logger.Write, Scanner.readEmpty, he, this]
    · simp only [longestEmptyRun, hd, if_false] at hrun
      have hrun' : longestEmptyRun chunks 0 ≤ maxConsecutiveEmptyReads :=
        le_trans (le_max_right _ _) hrun
      simp only [List.flatten_cons, linesFrom_append, restFrom_append] at hlen
      have hdata : ∀ seg ∈ linesFrom pending data ++ [restFrom pending data],
          seg.length < MaxScanTokenSize := by
        intro seg hseg
        rcases List.mem_append.1 hseg with h | h
        · exact hlen seg (by simp [h])
        · obtain ⟨seg', hseg', hle⟩ := pending_le_segment chunks.flatten (restFrom pending data)
          have := hlen seg' (by
            simp only [List.mem_append, List.mem_cons] at hseg' ⊢
            tauto)
          simp at h
          subst h
          omega
      have hrest := ih (restFrom pending data) 0 (restFrom_no_newline data pending hp)
        (fun seg hseg => hlen seg (by
          simp only [List.mem_append, List.mem_cons] at hseg ⊢
          tauto)) hrun'
      simp [logger.writes, logger.Write, hd, readBytes_ok data pending e hdata, hrest,
        linesFrom_append]

theorem readBytes_replicate (b : Nat) (hb : b ≠ 10) (k : Nat) :
    ∀ (pending tail : List Nat), pending.length + k < MaxScanTokenSize →
      Scanner.readBytes { pending := pending, emptyReads := 0, stopped := false }
          (List.replicate k b ++ tail) =
        Scanner.readBytes
          { pending := pending ++ List.replicate k b, emptyReads := 0, stopped := false } tail := by
  induction k with
  | zero => intro pending tail _; simp
  | succ k ih =>
    intro pending tail hlt
    have hroom : ¬ MaxScanTokenSize ≤ pending.length + 1 := by omega
    have := ih (pending ++ [b]) tail (by simp; omega)
    rw [List.replicate_succ, List.cons_append]
    simp only [Scanner.readBytes, Scanner.readByte, hb, hroom, if_false, Bool.false_eq_true,
      List.nil_append, this]
    simp

/-- A line that fills the largest buffer stops the scanner: the bytes after it
are never read. -/
theorem readBytes_tooLong (b : Nat) (hb : b ≠ 10) (k : Nat) (hk : k + 1 = MaxScanTokenSize)
    (t : Nat) (ts : List Nat) :
    Scanner.readBytes { pending := [], emptyReads := 0, stopped := false }
        (List.replicate (k + 1) b ++ t :: ts) =
      ({ pending := List.replicate (k + 1) b, emptyReads := 0, stopped := true }, [], false) := by
  have hfull : MaxScanTokenSize ≤ k + 1 := by omega
  rw [List.replicate_succ', List.append_assoc,
    readBytes_replicate b hb k [] ([b] ++ t :: ts) (by simp; omega)]
  simp [Scanner.readBytes, Scanner.readByte, hb, hfull]

theorem writes_stopped (chunks : List (List Nat)) :
    ∀ (l : logger), l.scan.stopped = true →
      l.writes chunks = ([], chunks.map (fun _ => none)) := by
  induction chunks with
  | nil => intro l _; rfl
  | cons data chunks ih =>
    intro l hl
    simp [logger.writes, logger.Write, hl, ih l hl]

theorem writes_tooLong (b : Nat) (hb : b ≠ 10) (k : Nat) (hk : k + 1 = MaxScanTokenSize)
    (t : Nat) (ts : List Nat) (chunks : List (List Nat)) :
    newLogger.writes ((List.replicate (k + 1) b ++ t :: ts) :: chunks) =
      ([], none :: chunks.map (fun _ => none)) := by
  have hne : List.replicate (k + 1) b ++ t :: ts ≠ [] := by simp
  have hw : newLogger.Write (List.replicate (k + 1) b ++ t :: ts) =
      ({ scan := { pending := List.replicate (k + 1) b, emptyReads := 0, stopped := true } }, [],
        none) := by
    simp only [logger.Write, newLogger, Bool.false_eq_true, if_false, hne,
      readBytes_tooLong b hb k hk t ts]
  simp only [logger.writes, hw, List.nil_append]
  rw [writes_stopped chunks _ rfl]

theorem completeLines_long_line (n b : Nat) (hb : b ≠ 10) :
    completeLines [List.replicate n b ++ [10], [98, 10]].flatten =
      [List.replicate n b, [98]] := by
  have h : [List.replicate n b ++ [10], [98, 10]].flatten =
      List.replicate n b ++ 10 :: [98, 10] := by simp
  rw [h, completeLines, List.splitOn,
    List.splitOnP_first _ _ (fun x hx hx10 => by
      rw [beq_iff_eq] at hx10
      exact hb ((List.eq_of_mem_replicate hx).symm.trans hx10)) 10 (by simp)]
  rfl

set_option maxRecDepth 8000 in
theorem writes_empty_run :
    newLogger.writes (List.replicate 101 [] ++ [[97, 10]]) =
      ([], List.replicate 101 (some 0) ++ [none]) := by
  decide

/-- C5 fails as stated: a line of 65536 bytes is never handed to the callback,
the write that carries it never returns, and the line written after it is
dropped as well; and after 101 empty writes in a row the next line is dropped
and its write never returns. -/
theorem logger_counterexample :
    newLogger.writes [List.replicate 65536 97 ++ [10], [98, 10]] = ([], [none, none]) ∧
    completeLines [List.replicate 65536 97 ++ [10], [98, 10]].flatten =
      [List.replicate 65536 97, [98]] ∧
    newLogger.writes (List.replicate 101 [] ++ [[97, 10]]) =
      ([], List.replicate 101 (some 0) ++ [none]) :=
  ⟨writes_tooLong 97 (by decide) 65535 rfl 10 [] [[98, 10]],
    completeLines_long_line 65536 97 (by decide), writes_empty_run⟩

/-- C5 as amended: when every line of the concatenated bytes, the unfinished
last one included, is shorter than 65536 bytes and no more than 100 writes in
a row are empty, the callback is called exactly once for each complete line of
the concatenated bytes, in order, with the bytes of the line less one trailing
carriage return, however the bytes are split into writes, and every write
reports all of its bytes written. -/
theorem logger_lines (chunks : List (List Nat))
    (hlen : ∀ seg ∈ chunks.flatten.splitOn 10, seg.length < MaxScanTokenSize)
    (hrun : longestEmptyRun chunks 0 ≤ maxConsecutiveEmptyReads) :
    newLogger.writes chunks =
      ((completeLines chunks.flatten).map dropCR, chunks.map (fun d => some d.length)) := by
  have hs := splitOn_eq_linesFrom chunks.flatten [] (by simp)
  rw [List.nil_append] at hs
  rw [hs] at hlen
  have := writes_ok chunks [] 0 (by simp) hlen hrun
  rw [completeLines, hs, List.dropLast_concat]
  exact this

/-- Witness of `logger_lines`: the line "hi", the line "ok" ended by a carriage
return and a newline, and a lone "x", written in four pieces of which one is
empty, give the two calls "hi" and "ok". -/
theorem logger_lines_witness :
    newLogger.writes [[104, 105], [], [10, 111], [107, 13, 10, 120]] =
      ([[104, 105], [111, 107]], [some 2, some 0, some 2, some 4]) :=
  (logger_lines [[104, 105], [], [10, 111], [107, 13, 10, 120]] (by decide) (by decide)).trans
    (by decide)

end Csi
